import Mathlib

set_option maxRecDepth 8000

/-!
Verification model of the go-sflag library (sflag.go).  The library binds
struct fields carrying a flag tag to entries of a flag.FlagSet: parseTag
decodes a tag, addFlags registers one flag per annotated field, getFlagIndexes
maps each flag name to the structural path of its field, and SetFromFlags
writes parsed flag values back into the struct.

The model is a shallow embedding: Go struct types, reflect values, and the
relevant behavior of the flag package collaborator (storage cells, Set,
String, Getter, DefValue) are given as executable Lean definitions, and the
functions of sflag.go are translated over them.  Simplifications, each noted
at its definition: numeric literals are decimal (no base prefixes or
underscores of the Go base-0 syntax), float values are exact rationals
(binary rounding of float64 is not modelled), name shadowing and promotion
through embedded pointers are outside the struct-field model, and flags are
visited in registration order rather than in lexicographic name order (only
order-insensitive facts are stated).
-/

namespace Sflag

deriving instance DecidableEq for Except

/-- Identity of a user-defined named type implementing the flag.Value
interface of the flag package.  The model records an identifying tag and
whether the type also implements flag.Getter.  Such a type is opaque and has
neither struct nor pointer kind here. -/
structure CustomType where
  id : Nat
  hasGetter : Bool
deriving DecidableEq, Repr

/-- Kinds of Go types, mirroring the reflect.Kind values the library
dispatches on.  customK is the kind of an opaque named type implementing
flag.Value. -/
inductive GoKind where
  | boolK | intK | uintK
  | int8K | int16K | int32K | int64K
  | uint8K | uint16K | uint32K | uint64K
  | float32K | float64K | stringK
  | structK | pointerK | customK
deriving DecidableEq, Repr

mutual
/-- Go types as the library observes them through reflect.  duration is
time.Duration: a distinct named type whose kind is int64.  str is string. -/
inductive GoType where
  | bool | int | uint
  | int8 | int16 | int32 | int64 | duration
  | uint8 | uint16 | uint32 | uint64
  | float32 | float64
  | str
  | struct_ (fields : List GoField)
  | pointer (elem : GoType)
  | custom (c : CustomType)

/-- A struct field as reflect reports it: name, whether it is embedded
(anonymous), whether it is exported, its type, and the value of its flag
struct tag, with the empty string standing for an absent tag. -/
inductive GoField where
  | mk (name : String) (anonymous : Bool) (exported : Bool)
      (typ : GoType) (tag : String)
end

def GoField.name : GoField → String
  | .mk n _ _ _ _ => n

def GoField.anonymous : GoField → Bool
  | .mk _ a _ _ _ => a

def GoField.exported : GoField → Bool
  | .mk _ _ e _ _ => e

def GoField.typ : GoField → GoType
  | .mk _ _ _ t _ => t

def GoField.tag : GoField → String
  | .mk _ _ _ _ g => g

/-- Kind of a type, as reflect.Kind reports it. -/
def kindOf : GoType → GoKind
  | .bool => .boolK
  | .int => .intK
  | .uint => .uintK
  | .int8 => .int8K
  | .int16 => .int16K
  | .int32 => .int32K
  | .int64 => .int64K
  | .duration => .int64K
  | .uint8 => .uint8K
  | .uint16 => .uint16K
  | .uint32 => .uint32K
  | .uint64 => .uint64K
  | .float32 => .float32K
  | .float64 => .float64K
  | .str => .stringK
  | .struct_ _ => .structK
  | .pointer _ => .pointerK
  | .custom _ => .customK

/-- Dereference one level of pointer type, as addFlags does on lines
107-112 of sflag.go before dispatching on the kind. -/
def derefOnce : GoType → GoType
  | .pointer e => e
  | t => t

/-- Reflect values of the types above.  A struct value keeps the field
descriptors so that its type is recoverable; a pointer value is nil or holds
its pointee (cell identity and aliasing are outside the model); a custom
value carries the string state its Set method stored. -/
inductive GoValue where
  | vBool (b : Bool)
  | vInt (i : Int)
  | vUint (n : Nat)
  | vInt8 (i : Int)
  | vInt16 (i : Int)
  | vInt32 (i : Int)
  | vInt64 (i : Int)
  | vDuration (i : Int)
  | vUint8 (n : Nat)
  | vUint16 (n : Nat)
  | vUint32 (n : Nat)
  | vUint64 (n : Nat)
  | vFloat32 (q : Rat)
  | vFloat64 (q : Rat)
  | vString (s : String)
  | vStruct (fields : List GoField) (vs : List GoValue)
  | vPointer (elem : GoType) (p : Option GoValue)
  | vCustom (c : CustomType) (state : String)

/-- Type of a value, as reflect.Value.Type reports it. -/
def valueType : GoValue → GoType
  | .vBool _ => .bool
  | .vInt _ => .int
  | .vUint _ => .uint
  | .vInt8 _ => .int8
  | .vInt16 _ => .int16
  | .vInt32 _ => .int32
  | .vInt64 _ => .int64
  | .vDuration _ => .duration
  | .vUint8 _ => .uint8
  | .vUint16 _ => .uint16
  | .vUint32 _ => .uint32
  | .vUint64 _ => .uint64
  | .vFloat32 _ => .float32
  | .vFloat64 _ => .float64
  | .vString _ => .str
  | .vStruct fs _ => .struct_ fs
  | .vPointer e _ => .pointer e
  | .vCustom c _ => .custom c

mutual
/-- Model of reflect.Value.IsZero: numeric zero, false, empty string, nil
pointer, a struct all of whose fields are zero, a custom value whose stored
state is empty. -/
def isZero : GoValue → Bool
  | .vBool b => !b
  | .vInt i => i == 0
  | .vUint n => n == 0
  | .vInt8 i => i == 0
  | .vInt16 i => i == 0
  | .vInt32 i => i == 0
  | .vInt64 i => i == 0
  | .vDuration i => i == 0
  | .vUint8 n => n == 0
  | .vUint16 n => n == 0
  | .vUint32 n => n == 0
  | .vUint64 n => n == 0
  | .vFloat32 q => q == 0
  | .vFloat64 q => q == 0
  | .vString s => s == ""
  | .vStruct _ vs => allZero vs
  | .vPointer _ p => p.isNone
  | .vCustom _ st => st == ""

/-- isZero on every value of a list. -/
def allZero : List GoValue → Bool
  | [] => true
  | v :: vs => isZero v && allZero vs
end

mutual
/-- The zero value of a type (what reflect.New allocates). -/
def zeroVal : GoType → GoValue
  | .bool => .vBool false
  | .int => .vInt 0
  | .uint => .vUint 0
  | .int8 => .vInt8 0
  | .int16 => .vInt16 0
  | .int32 => .vInt32 0
  | .int64 => .vInt64 0
  | .duration => .vDuration 0
  | .uint8 => .vUint8 0
  | .uint16 => .vUint16 0
  | .uint32 => .vUint32 0
  | .uint64 => .vUint64 0
  | .float32 => .vFloat32 0
  | .float64 => .vFloat64 0
  | .str => .vString ""
  | .struct_ fs => .vStruct fs (zeroVals fs)
  | .pointer e => .vPointer e none
  | .custom c => .vCustom c ""

/-- Zero values of a list of fields. -/
def zeroVals : List GoField → List GoValue
  | [] => []
  | .mk _ _ _ t _ :: fs => zeroVal t :: zeroVals fs
end

/-- Model of reflect.Value.FieldByIndex used as a reader: walk a structural
path of field offsets through nested struct values.  The paths built by the
library pass only through struct fields. -/
def getPath : GoValue → List Nat → Option GoValue
  | v, [] => some v
  | .vStruct _ vs, i :: rest =>
      match vs.get? i with
      | some w => getPath w rest
      | none => none
  | _, _ :: _ => none

/-- Functional update at a structural path: the write that
reflect.Value.Set performs on the field reached by FieldByIndex. -/
def setPath : GoValue → List Nat → GoValue → Option GoValue
  | _, [], w => some w
  | .vStruct fs vs, i :: rest, w =>
      match vs.get? i with
      | some u =>
          match setPath u rest w with
          | some u2 => some (.vStruct fs (vs.set i u2))
          | none => none
      | none => none
  | _, _ :: _, _ => none

/-- Accumulate decimal digits left to right. -/
def digitsNatAux : List Char → Nat → Nat
  | [], acc => acc
  | c :: cs, acc => digitsNatAux cs (acc * 10 + (c.toNat - 48))

/-- Value of a list of decimal digit characters. -/
def digitsNat (cs : List Char) : Nat := digitsNatAux cs 0

/-- Parse a nonempty all-digit string; none on any other input. -/
def decDigits : List Char → Option Nat
  | [] => none
  | cs => if cs.all Char.isDigit then some (digitsNat cs) else none

/-- Split a leading run of decimal digits from the rest. -/
def takeDigits : List Char → List Char × List Char
  | [] => ([], [])
  | c :: cs =>
      if c.isDigit then
        let p := takeDigits cs
        (c :: p.1, p.2)
      else ([], c :: cs)

/-- Model of the boolean syntax strconv.ParseBool accepts. -/
def parseGoBool (s : String) : Option Bool :=
  if s = "1" ∨ s = "t" ∨ s = "T" ∨ s = "true" ∨ s = "TRUE" ∨ s = "True" then
    some true
  else if s = "0" ∨ s = "f" ∨ s = "F" ∨ s = "false" ∨ s = "FALSE" ∨ s = "False" then
    some false
  else none

/-- Model of the unsigned integer parse the flag package performs
(strconv.ParseUint, 64-bit): decimal digits, value below 2 to the 64.  The
base-prefix and underscore forms of the Go base-0 syntax are not modelled. -/
def parseGoUint (s : String) : Option Nat :=
  match decDigits s.data with
  | some n => if n < 2 ^ 64 then some n else none
  | none => none

/-- Model of the signed integer parse the flag package performs
(strconv.ParseInt, 64-bit): optional sign, decimal digits, 64-bit range. -/
def parseGoInt (s : String) : Option Int :=
  match s.data with
  | '-' :: rest =>
      match decDigits rest with
      | some n => if (n : Int) ≤ 2 ^ 63 then some (-(n : Int)) else none
      | none => none
  | '+' :: rest =>
      match decDigits rest with
      | some n => if (n : Int) < 2 ^ 63 then some (n : Int) else none
      | none => none
  | cs =>
      match decDigits cs with
      | some n => if (n : Int) < 2 ^ 63 then some (n : Int) else none
      | none => none

/-- Exponent part of a float literal: optional sign and digits. -/
def parseExp : List Char → Option Int
  | '-' :: r => (decDigits r).map (fun n => -(n : Int))
  | '+' :: r => (decDigits r).map (fun n => (n : Int))
  | r => (decDigits r).map (fun n => (n : Int))

/-- Model of strconv.ParseFloat on decimal literals, kept exact as a
rational; binary rounding to float64, hex floats, and inf or NaN forms are
not modelled. -/
def parseGoFloat (s : String) : Option Rat :=
  let sgncs : Bool × List Char :=
    match s.data with
    | '-' :: r => (true, r)
    | '+' :: r => (false, r)
    | r => (false, r)
  let ip := takeDigits sgncs.2
  let fpr : List Char × List Char :=
    match ip.2 with
    | '.' :: r => takeDigits r
    | r => ([], r)
  if ip.1.isEmpty ∧ fpr.1.isEmpty then none
  else
    let e : Option Int :=
      match fpr.2 with
      | [] => some 0
      | 'e' :: r => parseExp r
      | 'E' :: r => parseExp r
      | _ => none
    match e with
    | none => none
    | some ex =>
        let base : Rat :=
          (digitsNat (ip.1 ++ fpr.1) : Rat) / ((10 : Rat) ^ fpr.1.length)
        let scaled : Rat :=
          if 0 ≤ ex then base * (10 : Rat) ^ ex.toNat
          else base / ((10 : Rat) ^ (-ex).toNat)
        some (if sgncs.1 then -scaled else scaled)

/-- Zero-padded k-digit decimal rendering of n. -/
def natDigitsPad (n : Nat) : Nat → List Char
  | 0 => []
  | k + 1 => natDigitsPad (n / 10) k ++ [Char.ofNat (48 + n % 10)]

/-- Drop trailing zero digits. -/
def stripTrailZeros (cs : List Char) : List Char :=
  (cs.reverse.dropWhile (fun c => c == '0')).reverse

/-- Fractional part of u over a power-of-ten scale with k digits, trailing
zeros trimmed, preceded by a dot when nonempty, as time.Duration.String
formats fractions. -/
def fracDot (u scale k : Nat) : String :=
  let ds := stripTrailZeros (natDigitsPad (u % scale) k)
  if ds.isEmpty then "" else String.mk ('.' :: ds)

/-- Model of time.Duration.String. -/
def durationString (d : Int) : String :=
  let u := d.natAbs
  let sign := if d < 0 then "-" else ""
  if d = 0 then "0s"
  else if u < 1000 then sign ++ toString u ++ "ns"
  else if u < 1000000 then sign ++ toString (u / 1000) ++ fracDot u 1000 3 ++ "µs"
  else if u < 1000000000 then
    sign ++ toString (u / 1000000) ++ fracDot u 1000000 6 ++ "ms"
  else
    let secs := u / 1000000000
    let core := toString (secs % 60) ++ fracDot u 1000000000 9 ++ "s"
    let mins := secs / 60
    if mins = 0 then sign ++ core
    else if mins / 60 = 0 then sign ++ toString (mins % 60) ++ "m" ++ core
    else sign ++ toString (mins / 60) ++ "h" ++ toString (mins % 60) ++ "m" ++ core

/-- Nanoseconds per unit suffix, as time.ParseDuration accepts. -/
def durUnit (s : String) : Option Nat :=
  if s = "ns" then some 1
  else if s = "us" then some 1000
  else if s = "µs" then some 1000
  else if s = "μs" then some 1000
  else if s = "ms" then some 1000000
  else if s = "s" then some 1000000000
  else if s = "m" then some 60000000000
  else if s = "h" then some 3600000000000
  else none

/-- Split a leading run of unit characters (neither digit nor dot). -/
def takeUnit : List Char → List Char × List Char
  | [] => ([], [])
  | c :: cs =>
      if c.isDigit ∨ c = '.' then ([], c :: cs)
      else
        let p := takeUnit cs
        (c :: p.1, p.2)

/-- One or more number-unit components of a duration literal, summed in
nanoseconds.  Fractional contributions use truncating integer arithmetic
where Go uses float64 multiplication; fuel bounds the recursion and always
suffices since every component consumes input. -/
def parseDurComps : Nat → List Char → Option Nat
  | _, [] => some 0
  | 0, _ :: _ => none
  | fuel + 1, cs =>
      let ip := takeDigits cs
      let fpr : List Char × List Char :=
        match ip.2 with
        | '.' :: r => takeDigits r
        | r => ([], r)
      if ip.1.isEmpty ∧ fpr.1.isEmpty then none
      else
        let up := takeUnit fpr.2
        if up.1.isEmpty then none
        else
          match durUnit (String.mk up.1) with
          | none => none
          | some unit =>
              let whole := digitsNat ip.1 * unit
              let frac := digitsNat fpr.1 * unit / 10 ^ fpr.1.length
              match parseDurComps fuel up.2 with
              | some rest => some (whole + frac + rest)
              | none => none

/-- Model of time.ParseDuration: optional sign, the special case 0, then
number-unit components; the result must fit in int64. -/
def parseGoDuration (s : String) : Option Int :=
  let sgncs : Bool × List Char :=
    match s.data with
    | '-' :: r => (true, r)
    | '+' :: r => (false, r)
    | r => (false, r)
  if sgncs.2 = ['0'] then some 0
  else if sgncs.2.isEmpty then none
  else
    match parseDurComps (sgncs.2.length + 1) sgncs.2 with
    | none => none
    | some n =>
        if n < 2 ^ 63 then some (if sgncs.1 then -(n : Int) else (n : Int))
        else none

/-- Split a list at the first occurrence of sep, when present. -/
def breakAt (sep : Char) : List Char → Option (List Char × List Char)
  | [] => none
  | c :: cs =>
      if c = sep then some ([], cs)
      else (breakAt sep cs).map (fun p => (c :: p.1, p.2))

/-- Model of strings.SplitN for a positive count n: at most n parts, the
last part keeping every remaining separator. -/
def splitNAux (sep : Char) : Nat → List Char → List (List Char)
  | 0, _ => []
  | 1, cs => [cs]
  | n + 2, cs =>
      match breakAt sep cs with
      | none => [cs]
      | some p => p.1 :: splitNAux sep (n + 1) p.2

/-- strings.SplitN over strings. -/
def splitN (s : String) (sep : Char) (n : Nat) : List String :=
  (splitNAux sep n s.data).map String.mk

/-- Model of parseTag (sflag.go lines 82-89): split the tag value on the
first two commas; a result of anything but exactly three parts is a panic,
modelled as none. -/
def parseTag (v : String) : Option (String × String × String) :=
  match splitN v ',' 3 with
  | [a, b, c] => some (a, b, c)
  | _ => none

mutual
/-- Boolean type identity, standing in for Go type identity comparisons
(reflect.Type equality and, between the canonical types of the model,
assignability). -/
def tyBeq : GoType → GoType → Bool
  | .bool, .bool => true
  | .int, .int => true
  | .uint, .uint => true
  | .int8, .int8 => true
  | .int16, .int16 => true
  | .int32, .int32 => true
  | .int64, .int64 => true
  | .duration, .duration => true
  | .uint8, .uint8 => true
  | .uint16, .uint16 => true
  | .uint32, .uint32 => true
  | .uint64, .uint64 => true
  | .float32, .float32 => true
  | .float64, .float64 => true
  | .str, .str => true
  | .struct_ fs, .struct_ gs => fieldsBeq fs gs
  | .pointer e, .pointer e2 => tyBeq e e2
  | .custom c, .custom c2 => c == c2
  | _, _ => false

/-- Field identity. -/
def fieldBeq : GoField → GoField → Bool
  | .mk n a e t g, .mk n2 a2 e2 t2 g2 =>
      n == n2 && a == a2 && e == e2 && tyBeq t t2 && g == g2

/-- Field-list identity. -/
def fieldsBeq : List GoField → List GoField → Bool
  | [], [] => true
  | f :: fs, g :: gs => fieldBeq f g && fieldsBeq fs gs
  | _, _ => false
end

/-- Storage cells of the flag package: one constructor per flag kind the
library registers (flag.Bool, Int, Uint, Int64, Uint64, Duration, Float64,
String, and Var for custom flag.Value types). -/
inductive FlagVal where
  | boolF (b : Bool)
  | intF (i : Int)
  | uintF (n : Nat)
  | int64F (i : Int)
  | uint64F (n : Nat)
  | durationF (i : Int)
  | float64F (q : Rat)
  | stringF (s : String)
  | customF (c : CustomType) (state : String)
deriving DecidableEq

/-- Rendering of a rational float value.  It agrees with
strconv.FormatFloat on integral values such as the zero defaults the
library registers; shortest-round-trip formatting of non-integral binary
floats is not modelled. -/
def ratString (q : Rat) : String :=
  if q.den = 1 then toString q.num
  else toString q.num ++ "/" ++ toString q.den

/-- Model of flag.Value.String on each storage cell.  A custom value
renders its stored state. -/
def FlagVal.str : FlagVal → String
  | .boolF b => if b then "true" else "false"
  | .intF i => toString i
  | .uintF n => toString n
  | .int64F i => toString i
  | .uint64F n => toString n
  | .durationF d => durationString d
  | .float64F q => ratString q
  | .stringF s => s
  | .customF _ st => st

/-- Model of flag.Value.Set on each storage cell: parse the text per kind.
A custom value in the model accepts every string and stores it. -/
def FlagVal.set : FlagVal → String → Except String FlagVal
  | .boolF _, s =>
      match parseGoBool s with
      | some b => .ok (.boolF b)
      | none => .error "invalid boolean value"
  | .intF _, s =>
      match parseGoInt s with
      | some i => .ok (.intF i)
      | none => .error "invalid int value"
  | .uintF _, s =>
      match parseGoUint s with
      | some n => .ok (.uintF n)
      | none => .error "invalid uint value"
  | .int64F _, s =>
      match parseGoInt s with
      | some i => .ok (.int64F i)
      | none => .error "invalid int64 value"
  | .uint64F _, s =>
      match parseGoUint s with
      | some n => .ok (.uint64F n)
      | none => .error "invalid uint64 value"
  | .durationF _, s =>
      match parseGoDuration s with
      | some d => .ok (.durationF d)
      | none => .error "invalid duration value"
  | .float64F _, s =>
      match parseGoFloat s with
      | some q => .ok (.float64F q)
      | none => .error "invalid float value"
  | .stringF _, s => .ok (.stringF s)
  | .customF c _, s => .ok (.customF c s)

/-- Model of the flag.Getter capability: every built-in storage cell of the
flag package implements Getter and returns its current value; a custom
value implements it only when its type declares so, returning the value
itself. -/
def FlagVal.get : FlagVal → Option GoValue
  | .boolF b => some (.vBool b)
  | .intF i => some (.vInt i)
  | .uintF n => some (.vUint n)
  | .int64F i => some (.vInt64 i)
  | .uint64F n => some (.vUint64 n)
  | .durationF d => some (.vDuration d)
  | .float64F q => some (.vFloat64 q)
  | .stringF s => some (.vString s)
  | .customF c st => if c.hasGetter then some (.vCustom c st) else none

/-- Model of reflect.ValueOf(fl.Value): the interface value holds a pointer
to the storage cell.  SetFromFlags reaches this handle only for a custom
flag without Getter, since built-in cells implement Getter; for built-in
cells the model uses the plain element type where Go has the unexported
named cell type of the flag package. -/
def FlagVal.handle : FlagVal → GoValue
  | .boolF b => .vPointer .bool (some (.vBool b))
  | .intF i => .vPointer .int (some (.vInt i))
  | .uintF n => .vPointer .uint (some (.vUint n))
  | .int64F i => .vPointer .int64 (some (.vInt64 i))
  | .uint64F n => .vPointer .uint64 (some (.vUint64 n))
  | .durationF d => .vPointer .duration (some (.vDuration d))
  | .float64F q => .vPointer .float64 (some (.vFloat64 q))
  | .stringF s => .vPointer .str (some (.vString s))
  | .customF c st => .vPointer (.custom c) (some (.vCustom c st))

/-- One registered flag: name, usage text, storage cell, and the canonical
default representation DefValue. -/
structure Flag where
  name : String
  usage : String
  value : FlagVal
  defValue : String
deriving DecidableEq

/-- The external flag registry: defined flags in registration order, the
parsed mark, and the names actually supplied on the command line (what
flag.FlagSet.Visit iterates).  Go visits flags in lexicographic name order;
the model visits them in registration order and states only
order-insensitive facts. -/
structure FlagSet where
  flags : List Flag
  parsed : Bool
  actual : List String
deriving DecidableEq

/-- The empty registry. -/
def emptyFS : FlagSet := FlagSet.mk [] false []

/-- Model of flag.FlagSet.Lookup. -/
def fsLookup (fs : FlagSet) (n : String) : Option Flag :=
  fs.flags.find? (fun fl => fl.name == n)

/-- Model of flag.FlagSet.Var and the typed define helpers built on it:
append a flag whose DefValue is the stringified initial cell. -/
def defineFlag (fs : FlagSet) (n : String) (fv : FlagVal) (usage : String) : FlagSet :=
  FlagSet.mk (fs.flags ++ [Flag.mk n usage fv fv.str]) fs.parsed fs.actual

/-- Rewrite the flag named n in place. -/
def mapFlag (fs : FlagSet) (n : String) (g : Flag → Flag) : FlagSet :=
  FlagSet.mk (fs.flags.map (fun fl => if fl.name == n then g fl else fl))
    fs.parsed fs.actual

/-- Model of flag.FlagSet.Set: parse the textual value into the named flag
and record the flag as explicitly set. -/
def fsSet (fs : FlagSet) (n s : String) : Except String FlagSet :=
  match fsLookup fs n with
  | none => .error "no such flag"
  | some fl =>
      match fl.value.set s with
      | .error e => .error e
      | .ok fv =>
          .ok (FlagSet.mk
            ((mapFlag fs n (fun f0 => Flag.mk f0.name f0.usage fv f0.defValue)).flags)
            fs.parsed (fs.actual ++ [n]))

/-- Simulate the parse step with one explicit command-line assignment of
value s to flag n: afterwards the registry is marked parsed and n is
recorded as explicitly set. -/
def simulateParse (fs : FlagSet) (n s : String) : Except String FlagSet :=
  match fsSet fs n s with
  | .ok fs2 => .ok (FlagSet.mk fs2.flags true fs2.actual)
  | .error e => .error e

/-- Whether the pointer form of a type implements flag.Value
(the check on line 125 of sflag.go): exactly the custom types do. -/
def implementsFlagValue : GoType → Bool
  | .custom _ => true
  | _ => false

/-- Initial storage cell addFlags chooses for a field whose once-
dereferenced type is typ: the flag.Value implementation check of line 125
comes first, then the kind switch of lines 129-151; none models the panic
on an unsupported type. -/
def regFlagVal (typ : GoType) : Option FlagVal :=
  if implementsFlagValue typ then
    match typ with
    | .custom c => some (.customF c "")
    | _ => none
  else
    match kindOf typ with
    | .boolK => some (.boolF false)
    | .intK => some (.intF 0)
    | .uintK => some (.uintF 0)
    | .int8K => some (.int64F 0)
    | .int16K => some (.int64F 0)
    | .int32K => some (.int64F 0)
    | .int64K =>
        match typ with
        | .duration => some (.durationF 0)
        | _ => some (.int64F 0)
    | .uint8K => some (.uint64F 0)
    | .uint16K => some (.uint64F 0)
    | .uint32K => some (.uint64F 0)
    | .uint64K => some (.uint64F 0)
    | .float32K => some (.float64F 0)
    | .float64K => some (.float64F 0)
    | .stringK => some (.stringF "")
    | _ => none

/-- Model of the default application on lines 153-159 of sflag.go: parse
the default string into the flag storage and record the stringified result
as the canonical DefValue.  addFlags reaches this only when the default
segment is nonempty. -/
def applyDefault (fs : FlagSet) (n deflt : String) : Except String FlagSet :=
  match fsLookup fs n with
  | none => .error "flag not found"
  | some fl =>
      match fl.value.set deflt with
      | .error _ => .error "invalid default value"
      | .ok fv =>
          .ok (mapFlag fs n (fun f0 => Flag.mk f0.name f0.usage fv fv.str))

/-- A visible field together with its index path relative to the root the
enumeration started from, as reflect.VisibleFields reports it. -/
structure VField where
  field : GoField
  index : List Nat

mutual
/-- Enumeration underlying reflect.VisibleFields: fields in declaration
order; an embedded (anonymous) struct field is listed itself and followed
by its own visible fields under an extended index path. -/
def visFields : List GoField → List Nat → Nat → List VField
  | [], _, _ => []
  | f :: rest, pfx, i =>
      VField.mk f (pfx ++ [i]) ::
        (visAnon f (pfx ++ [i]) ++ visFields rest pfx (i + 1))

/-- Promoted fields contributed by one field: nonempty only for an
embedded struct field. -/
def visAnon : GoField → List Nat → List VField
  | .mk _ a _ t _, pfx =>
      if a then
        match t with
        | .struct_ gs => visFields gs pfx 0
        | _ => []
      else []
end

/-- Model of reflect.VisibleFields, which panics when the type is not a
struct type. -/
def visibleFields (t : GoType) : Except String (List VField) :=
  match t with
  | .struct_ gs => .ok (visFields gs [] 0)
  | _ => .error "reflect: VisibleFields of non-struct type"

mutual
/-- Executable structural size of a type, used as recursion measure for
the traversals below. -/
def tySize : GoType → Nat
  | .struct_ fs => 1 + fieldsSize fs
  | .pointer e => 1 + tySize e
  | _ => 1

/-- Size of a field list. -/
def fieldsSize : List GoField → Nat
  | [] => 0
  | f :: fs => 1 + fieldSize f + fieldsSize fs

/-- Size of a field. -/
def fieldSize : GoField → Nat
  | .mk _ _ _ t _ => 1 + tySize t
end

theorem tySize_pos (t : GoType) : 0 < tySize t := by
  cases t <;> simp [tySize]

theorem fieldSize_typ (f : GoField) : fieldSize f = 1 + tySize f.typ := by
  cases f; rfl

theorem mem_visAnon_cases (f : GoField) (pfx : List Nat) (vf : VField)
    (h : vf ∈ visAnon f pfx) :
    ∃ gs, f.typ = GoType.struct_ gs ∧ f.anonymous = true ∧
      vf ∈ visFields gs pfx 0 := by
  cases f with
  | mk nm a e t g =>
      cases a with
      | false => simp [visAnon] at h
      | true =>
          cases t <;> simp [visAnon, GoField.typ, GoField.anonymous] at h ⊢ <;>
            exact h

theorem mem_visFields_size :
    ∀ (n : Nat) (gs : List GoField) (pfx : List Nat) (i : Nat) (vf : VField),
      fieldsSize gs ≤ n → vf ∈ visFields gs pfx i →
        fieldSize vf.field ≤ fieldsSize gs := by
  intro n
  induction n with
  | zero =>
      intro gs pfx i vf hle hmem
      cases gs with
      | nil => simp [visFields] at hmem
      | cons f rest =>
          simp only [fieldsSize] at hle
          omega
  | succ n ih =>
      intro gs pfx i vf hle hmem
      cases gs with
      | nil => simp [visFields] at hmem
      | cons f rest =>
          simp only [visFields, List.mem_cons, List.mem_append] at hmem
          have hf := fieldSize_typ f
          have hfp := tySize_pos f.typ
          rcases hmem with h | h | h
          · subst h
            simp only [VField.field, fieldsSize]
            omega
          · rcases mem_visAnon_cases f (pfx ++ [i]) vf h with ⟨gs2, hty, _, hmem2⟩
            have hsz : tySize f.typ = 1 + fieldsSize gs2 := by rw [hty]; rfl
            have hrec := ih gs2 (pfx ++ [i]) 0 vf
              (by simp [fieldsSize] at hle; omega) hmem2
            simp only [fieldsSize]
            omega
          · have hrec := ih rest pfx (i + 1) vf
              (by simp [fieldsSize] at hle; omega) h
            simp only [fieldsSize]
            omega

theorem visibleFields_ok_size (t : GoType) (l : List VField)
    (h : visibleFields t = .ok l) :
    ∀ vf ∈ l, tySize vf.field.typ < tySize t := by
  cases t with
  | struct_ gs =>
      intro vf hvf
      simp only [visibleFields, Except.ok.injEq] at h
      subst h
      have h1 := mem_visFields_size (fieldsSize gs) gs [] 0 vf (Nat.le_refl _) hvf
      have h2 := fieldSize_typ vf.field
      simp only [tySize]
      omega
  | _ => simp [visibleFields] at h

/-- Bound used as termination measure while folding over visible fields:
the largest field-type size in the list. -/
def vfsBound (l : List VField) : Nat :=
  l.foldr (fun vf m => max (tySize vf.field.typ) m) 0

theorem vfsBound_lt (l : List VField) (B : Nat)
    (h : ∀ vf ∈ l, tySize vf.field.typ < B) (hB : 0 < B) : vfsBound l < B := by
  induction l with
  | nil => simpa [vfsBound]
  | cons vf rest ih =>
      simp only [vfsBound, List.foldr] at *
      have h1 := h vf (by simp)
      have h2 := ih (fun x hx => h x (by simp [hx]))
      omega

mutual
/-- Model of addFlags (sflag.go lines 101-161): walk the visible fields of
a struct type, skip embedded and unexported fields, recurse into an
untagged field whose once-dereferenced kind is struct (passing the field
value itself, hence its undereferenced type), and register one flag per
tagged field, applying a nonempty default afterwards.  Except models the
panics. -/
def addFlags (fs : FlagSet) (t : GoType) : Except String FlagSet :=
  match h : visibleFields t with
  | .error e => .error e
  | .ok vfs => addFlagsList fs vfs
termination_by (tySize t, 0, 0)
decreasing_by
  exact Prod.Lex.left _ _
    (vfsBound_lt vfs (tySize t) (visibleFields_ok_size t vfs h) (tySize_pos t))

/-- Fold of addFlagsField over the visible-field list. -/
def addFlagsList (fs : FlagSet) (l : List VField) : Except String FlagSet :=
  match l with
  | [] => .ok fs
  | vf :: rest =>
      match addFlagsField fs vf with
      | .error e => .error e
      | .ok fs2 => addFlagsList fs2 rest
termination_by (vfsBound l, 1, l.length)
decreasing_by
  · have hle : tySize vf.field.typ ≤ vfsBound (vf :: rest) := by
      simp [vfsBound]
    rcases Nat.lt_or_ge (tySize vf.field.typ) (vfsBound (vf :: rest)) with hlt | hge
    · exact Prod.Lex.left _ _ hlt
    · have heq : tySize vf.field.typ = vfsBound (vf :: rest) :=
        Nat.le_antisymm hle hge
      rw [heq]
      exact Prod.Lex.right _ (Prod.Lex.left _ _ (by omega))
  · have hle : vfsBound rest ≤ vfsBound (vf :: rest) := by
      simp [vfsBound]
    rcases Nat.lt_or_ge (vfsBound rest) (vfsBound (vf :: rest)) with hlt | hge
    · exact Prod.Lex.left _ _ hlt
    · have heq : vfsBound rest = vfsBound (vf :: rest) := Nat.le_antisymm hle hge
      rw [heq]
      exact Prod.Lex.right _ (Prod.Lex.right _ (by simp))

/-- Body of the field loop of addFlags. -/
def addFlagsField (fs : FlagSet) (vf : VField) : Except String FlagSet :=
  if vf.field.anonymous || !vf.field.exported then .ok fs
  else
    let typ := derefOnce vf.field.typ
    if vf.field.tag = "" then
      if kindOf typ = .structK then addFlags fs vf.field.typ else .ok fs
    else
      match parseTag vf.field.tag with
      | none => .error "invalid tag value"
      | some (nm, deflt, help) =>
          if (fsLookup fs nm).isSome then .error "flag already defined"
          else
            match regFlagVal typ with
            | none => .error "invalid type for flag"
            | some fv0 =>
                let fs2 := defineFlag fs nm fv0 help
                if deflt = "" then .ok fs2 else applyDefault fs2 nm deflt
termination_by (tySize vf.field.typ, 0, 1)
decreasing_by
  exact Prod.Lex.right _ (Prod.Lex.right _ (by omega))
end

/-- Lookup in the name-to-path mapping. -/
def lookupIdx (idx : List (String × List Nat)) (n : String) : Option (List Nat) :=
  match idx.find? (fun p => p.1 == n) with
  | some p => some p.2
  | none => none

mutual
/-- Model of getFlagIndexes (sflag.go lines 215-238): walk the visible
fields, skip embedded and unexported fields, recurse into an untagged
field whose own (undereferenced) kind is struct, and map the parsed tag
name of each tagged field to its index path, failing on a duplicate
name. -/
def getFlagIndexes (idx : List (String × List Nat)) (t : GoType)
    (pindex : List Nat) : Except String (List (String × List Nat)) :=
  match h : visibleFields t with
  | .error e => .error e
  | .ok vfs => gfiList idx vfs pindex
termination_by (tySize t, 0, 0)
decreasing_by
  exact Prod.Lex.left _ _
    (vfsBound_lt vfs (tySize t) (visibleFields_ok_size t vfs h) (tySize_pos t))

/-- Fold of gfiField over the visible-field list. -/
def gfiList (idx : List (String × List Nat)) (l : List VField)
    (pindex : List Nat) : Except String (List (String × List Nat)) :=
  match l with
  | [] => .ok idx
  | vf :: rest =>
      match gfiField idx vf pindex with
      | .error e => .error e
      | .ok idx2 => gfiList idx2 rest pindex
termination_by (vfsBound l, 1, l.length)
decreasing_by
  · have hle : tySize vf.field.typ ≤ vfsBound (vf :: rest) := by
      simp [vfsBound]
    rcases Nat.lt_or_ge (tySize vf.field.typ) (vfsBound (vf :: rest)) with hlt | hge
    · exact Prod.Lex.left _ _ hlt
    · have heq : tySize vf.field.typ = vfsBound (vf :: rest) :=
        Nat.le_antisymm hle hge
      rw [heq]
      exact Prod.Lex.right _ (Prod.Lex.left _ _ (by omega))
  · have hle : vfsBound rest ≤ vfsBound (vf :: rest) := by
      simp [vfsBound]
    rcases Nat.lt_or_ge (vfsBound rest) (vfsBound (vf :: rest)) with hlt | hge
    · exact Prod.Lex.left _ _ hlt
    · have heq : vfsBound rest = vfsBound (vf :: rest) := Nat.le_antisymm hle hge
      rw [heq]
      exact Prod.Lex.right _ (Prod.Lex.right _ (by simp))

/-- Body of the field loop of getFlagIndexes.  Unlike addFlagsField, the
struct test here is on the undereferenced field type. -/
def gfiField (idx : List (String × List Nat)) (vf : VField)
    (pindex : List Nat) : Except String (List (String × List Nat)) :=
  if vf.field.anonymous || !vf.field.exported then .ok idx
  else
    let index := pindex ++ vf.index
    if vf.field.tag = "" then
      if kindOf vf.field.typ = .structK then getFlagIndexes idx vf.field.typ index
      else .ok idx
    else
      match parseTag vf.field.tag with
      | none => .error "invalid tag value"
      | some (nm, _, _) =>
          if (lookupIdx idx nm).isSome then .error "duplicate flag"
          else .ok (idx ++ [(nm, index)])
termination_by (tySize vf.field.typ, 0, 1)
decreasing_by
  exact Prod.Lex.right _ (Prod.Lex.right _ (by omega))
end

/-- Extract the numeric content of a value, when it has one. -/
def numOf : GoValue → Option Rat
  | .vInt i => some (i : Rat)
  | .vUint n => some (n : Rat)
  | .vInt8 i => some (i : Rat)
  | .vInt16 i => some (i : Rat)
  | .vInt32 i => some (i : Rat)
  | .vInt64 i => some (i : Rat)
  | .vDuration i => some (i : Rat)
  | .vUint8 n => some (n : Rat)
  | .vUint16 n => some (n : Rat)
  | .vUint32 n => some (n : Rat)
  | .vUint64 n => some (n : Rat)
  | .vFloat32 q => some q
  | .vFloat64 q => some q
  | _ => none

/-- Truncate a rational toward zero, as Go float-to-integer conversion
does. -/
def ratTrunc (q : Rat) : Int := q.num.tdiv (q.den : Int)

/-- Two-complement wrap of an integer into an unsigned width. -/
def wrapU (x : Int) (w : Nat) : Nat := (x.emod (2 ^ w)).toNat

/-- Two-complement wrap of an integer into a signed width. -/
def wrapS (x : Int) (w : Nat) : Int :=
  (x + 2 ^ (w - 1)).emod (2 ^ w) - 2 ^ (w - 1)

/-- Model of reflect.Value.Convert for the conversions the synchronizer
can request: between numeric types, with integer wrap-around and
truncation toward zero.  none models the panic on non-convertible types;
the Go integer-to-string conversion and float precision loss are not
modelled. -/
def convertVal (w : GoValue) (tgt : GoType) : Option GoValue :=
  match numOf w with
  | none => none
  | some q =>
      match tgt with
      | .int => some (.vInt (wrapS (ratTrunc q) 64))
      | .int8 => some (.vInt8 (wrapS (ratTrunc q) 8))
      | .int16 => some (.vInt16 (wrapS (ratTrunc q) 16))
      | .int32 => some (.vInt32 (wrapS (ratTrunc q) 32))
      | .int64 => some (.vInt64 (wrapS (ratTrunc q) 64))
      | .duration => some (.vDuration (wrapS (ratTrunc q) 64))
      | .uint => some (.vUint (wrapU (ratTrunc q) 64))
      | .uint8 => some (.vUint8 (wrapU (ratTrunc q) 8))
      | .uint16 => some (.vUint16 (wrapU (ratTrunc q) 16))
      | .uint32 => some (.vUint32 (wrapU (ratTrunc q) 32))
      | .uint64 => some (.vUint64 (wrapU (ratTrunc q) 64))
      | .float32 => some (.vFloat32 q)
      | .float64 => some (.vFloat64 q)
      | _ => none

/-- Model of the VisitAll callback body of SetFromFlags (sflag.go lines
181-212): look up the field path of the flag name, obtain the flag value
preferring the Getter capability over the raw storage handle, apply the
write-skip rule of line 193, then reconcile types (lines 196-210) and
write the value at the path. -/
def syncStep (explicit : List String) (idx : List (String × List Nat))
    (v : GoValue) (fl : Flag) : Except String GoValue :=
  match lookupIdx idx fl.name with
  | none => .ok v
  | some index =>
      let flv : GoValue :=
        match fl.value.get with
        | some g => g
        | none => fl.value.handle
      match getPath v index with
      | none => .error "invalid field index"
      | some fiv =>
          if !isZero fiv && fl.value.str == fl.defValue
              && !explicit.contains fl.name then
            .ok v
          else
            if tyBeq (valueType fiv) (valueType flv) then
              match setPath v index flv with
              | some v2 => .ok v2
              | none => .error "invalid field index"
            else
              let tgt : GoType :=
                match fiv with
                | .vPointer e _ => e
                | _ => valueType fiv
              let viaPtr : Bool :=
                match fiv with
                | .vPointer _ _ => true
                | _ => false
              let flv2 : Except String GoValue :=
                match flv with
                | .vPointer _ (some w) => .ok w
                | .vPointer _ none => .error "nil pointer dereference"
                | w => .ok w
              match flv2 with
              | .error e => .error e
              | .ok w =>
                  let w2 : Except String GoValue :=
                    if tyBeq (valueType w) tgt then .ok w
                    else
                      match convertVal w tgt with
                      | some u => .ok u
                      | none => .error "value not convertible"
                  match w2 with
                  | .error e => .error e
                  | .ok u =>
                      let newv : GoValue :=
                        if viaPtr then .vPointer tgt (some u) else u
                      match setPath v index newv with
                      | some v2 => .ok v2
                      | none => .error "invalid field index"

/-- Fold of syncStep over every registered flag, modelling
flag.FlagSet.VisitAll; deviation from Go as noted on FlagSet: registration
order instead of lexicographic name order. -/
def syncAll (explicit : List String) (idx : List (String × List Nat))
    (v : GoValue) : List Flag → Except String GoValue
  | [] => .ok v
  | fl :: rest =>
      match syncStep explicit idx v fl with
      | .ok v2 => syncAll explicit idx v2 rest
      | .error e => .error e

/-- Model of SetFromFlags (sflag.go lines 167-213): require the parsed
mark, require a struct value, build the field-path index, collect the
explicitly set names (flag.FlagSet.Visit), and synchronize every flag. -/
def setFromFlags (v : GoValue) (fs : FlagSet) : Except String GoValue :=
  if !fs.parsed then .error "flag not parsed"
  else
    match valueType v with
    | .struct_ _ =>
        match getFlagIndexes [] (valueType v) [] with
        | .error e => .error e
        | .ok idx => syncAll fs.actual idx v fs.flags
    | _ => .error "not a struct"

/-- Model of the exported AddFlags (sflag.go lines 93-99):
reflect.Indirect one pointer level, require a struct, then addFlags. -/
def AddFlags (fs : FlagSet) (t : GoType) : Except String FlagSet :=
  match derefOnce t with
  | .struct_ gs => addFlags fs (.struct_ gs)
  | _ => .error "not a struct"

/-- The unconditional write path of the synchronizer, sflag.go lines
196-211 in isolation: reconcile the types of the target field value fiv
and the flag value flv, then write at the index path. -/
def writeRecon (v : GoValue) (index : List Nat) (fiv flv : GoValue) :
    Except String GoValue :=
  if tyBeq (valueType fiv) (valueType flv) then
    match setPath v index flv with
    | some v2 => .ok v2
    | none => .error "invalid field index"
  else
    let tgt : GoType :=
      match fiv with
      | .vPointer e _ => e
      | _ => valueType fiv
    let viaPtr : Bool :=
      match fiv with
      | .vPointer _ _ => true
      | _ => false
    let flv2 : Except String GoValue :=
      match flv with
      | .vPointer _ (some w) => .ok w
      | .vPointer _ none => .error "nil pointer dereference"
      | w => .ok w
    match flv2 with
    | .error e => .error e
    | .ok w =>
        let w2 : Except String GoValue :=
          if tyBeq (valueType w) tgt then .ok w
          else
            match convertVal w tgt with
            | some u => .ok u
            | none => .error "value not convertible"
        match w2 with
        | .error e => .error e
        | .ok u =>
            let newv : GoValue :=
              if viaPtr then .vPointer tgt (some u) else u
            match setPath v index newv with
            | some v2 => .ok v2
            | none => .error "invalid field index"

/-- The flag value the synchronizer writes from: the Getter result when
the storage exposes one, the raw storage handle otherwise (sflag.go lines
186-191). -/
def flagObtained (fv : FlagVal) : GoValue :=
  match fv.get with
  | some g => g
  | none => fv.handle

/-! Properties of the tag parser. -/

theorem breakAt_none_iff (sep : Char) (cs : List Char) :
    breakAt sep cs = none ↔ sep ∉ cs := by
  induction cs with
  | nil => simp [breakAt]
  | cons c cs ih =>
      by_cases hc : c = sep
      · subst hc; simp [breakAt]
      · simp only [breakAt, if_neg hc, Option.map_eq_none', ih, List.mem_cons]
        constructor
        · intro h hm
          rcases hm with hm | hm
          · exact hc hm.symm
          · exact h hm
        · intro h hm
          exact h (Or.inr hm)

theorem breakAt_some_iff (sep : Char) :
    ∀ (cs pre post : List Char), breakAt sep cs = some (pre, post) →
      cs = pre ++ sep :: post ∧ sep ∉ pre := by
  intro cs
  induction cs with
  | nil => intro pre post h; simp [breakAt] at h
  | cons c cs ih =>
      intro pre post h
      by_cases hc : c = sep
      · subst hc
        rw [breakAt, if_pos rfl] at h
        injection h with h
        injection h with h1 h2
        subst h1; subst h2
        simp
      · simp only [breakAt, if_neg hc] at h
        cases hb : breakAt sep cs with
        | none => rw [hb] at h; simp at h
        | some p =>
            rw [hb] at h
            simp only [Option.map_some'] at h
            injection h with h
            injection h with h1 h2
            rcases ih p.1 p.2 (by rw [hb]) with ⟨hcs, hnm⟩
            subst h1; subst h2
            refine ⟨by simp [hcs], ?_⟩
            simp only [List.mem_cons, not_or]
            exact ⟨fun hm => hc hm.symm, hnm⟩

theorem parseTag_eq (v : String) :
    parseTag v =
      match breakAt ',' v.data with
      | none => none
      | some p1 =>
          match breakAt ',' p1.2 with
          | none => none
          | some p2 => some (String.mk p1.1, String.mk p2.1, String.mk p2.2) := by
  cases hb1 : breakAt ',' v.data with
  | none => simp [parseTag, splitN, splitNAux, hb1]
  | some p1 =>
      cases hb2 : breakAt ',' p1.2 with
      | none => simp [parseTag, splitN, splitNAux, hb1, hb2]
      | some p2 => simp [parseTag, splitN, splitNAux, hb1, hb2]

theorem strData_append (a b : String) : (a ++ b).data = a.data ++ b.data := rfl

/-- C8: the tag parser splits an annotation on the first two commas into
exactly three parts (name, default, help) — the name and default carry no
comma, their concatenation with the two separating commas restores the
input, so any further commas stay inside the help segment — and an
annotation with fewer than two commas is a fatal parse error (modelled as
none), with no recovery path. -/
theorem parseTag_splits_on_first_two_commas (v : String) :
    (2 ≤ v.data.count ',' →
      ∃ n d h, parseTag v = some (n, d, h) ∧
        n ++ "," ++ d ++ "," ++ h = v ∧
        n.data.count ',' = 0 ∧ d.data.count ',' = 0) ∧
    (v.data.count ',' < 2 → parseTag v = none) := by
  cases hb1 : breakAt ',' v.data with
  | none =>
      have hpt : parseTag v = none := by rw [parseTag_eq, hb1]
      rw [breakAt_none_iff] at hb1
      have hc : v.data.count ',' = 0 := List.count_eq_zero.mpr hb1
      constructor
      · intro h2; omega
      · intro _; exact hpt
  | some p1 =>
      rcases breakAt_some_iff ',' v.data p1.1 p1.2 (by rw [hb1]) with ⟨hv1, hnm1⟩
      have hcv : v.data.count ',' = p1.2.count ',' + 1 := by
        rw [hv1]
        simp [List.count_append, List.count_eq_zero.mpr hnm1]
      cases hb2 : breakAt ',' p1.2 with
      | none =>
          have hpt : parseTag v = none := by rw [parseTag_eq, hb1]; simp [hb2]
          rw [breakAt_none_iff] at hb2
          have hc2 : p1.2.count ',' = 0 := List.count_eq_zero.mpr hb2
          constructor
          · intro h2; omega
          · intro _; exact hpt
      | some p2 =>
          rcases breakAt_some_iff ',' p1.2 p2.1 p2.2 (by rw [hb2]) with ⟨hv2, hnm2⟩
          have hc2 : p1.2.count ',' = p2.1.count ',' + p2.2.count ',' + 1 := by
            rw [hv2]
            simp [List.count_append]
            omega
          have hpt : parseTag v =
              some (String.mk p1.1, String.mk p2.1, String.mk p2.2) := by
            rw [parseTag_eq, hb1]; simp [hb2]
          constructor
          · intro _
            refine ⟨String.mk p1.1, String.mk p2.1, String.mk p2.2, hpt, ?_, ?_, ?_⟩
            · apply String.ext
              rw [strData_append, strData_append, strData_append, strData_append]
              rw [hv1, hv2]
              simp
            · exact List.count_eq_zero.mpr hnm1
            · exact List.count_eq_zero.mpr hnm2
          · intro h2; omega

theorem strMk_data (s : String) : String.mk s.data = s := by
  cases s; rfl

theorem comma_data : ("," : String).data = [','] := rfl

theorem breakAt_append_not_mem (sep : Char) (a b : List Char) (h : sep ∉ a) :
    breakAt sep (a ++ sep :: b) = some (a, b) := by
  induction a with
  | nil => simp [breakAt]
  | cons c cs ih =>
      simp only [List.mem_cons, not_or] at h
      rw [List.cons_append, breakAt, if_neg (fun hc => h.1 hc.symm),
        ih h.2]
      rfl

/-- Data of a three-segment tag built from its parts. -/
theorem tagBuild_data (nm d hlp : String) :
    (nm ++ "," ++ d ++ "," ++ hlp).data =
      nm.data ++ ',' :: (d.data ++ ',' :: hlp.data) := by
  rw [strData_append, strData_append, strData_append, strData_append, comma_data]
  simp

/-- parseTag recovers the three parts of a well-formed tag. -/
theorem parseTag_build (nm d hlp : String) (h1 : ',' ∉ nm.data)
    (h2 : ',' ∉ d.data) :
    parseTag (nm ++ "," ++ d ++ "," ++ hlp) = some (nm, d, hlp) := by
  rw [parseTag_eq, tagBuild_data, breakAt_append_not_mem ',' nm.data _ h1]
  simp only
  rw [breakAt_append_not_mem ',' d.data _ h2]

/-- A well-formed tag is never the empty string. -/
theorem tagBuild_ne_empty (nm d hlp : String) :
    ¬(nm ++ "," ++ d ++ "," ++ hlp = "") := by
  intro h
  have := congrArg String.data h
  rw [tagBuild_data] at this
  simp at this

theorem fsLookup_none_iff (fs : FlagSet) (nm : String) :
    fsLookup fs nm = none ↔ ∀ f ∈ fs.flags, ¬(f.name == nm) := by
  unfold fsLookup
  exact List.find?_eq_none

theorem fsLookup_defineFlag_self (fs : FlagSet) (nm u : String) (fv : FlagVal)
    (h : fsLookup fs nm = none) :
    fsLookup (defineFlag fs nm fv u) nm = some (Flag.mk nm u fv fv.str) := by
  unfold fsLookup defineFlag
  rw [List.find?_append]
  unfold fsLookup at h
  rw [h]
  simp [List.find?]

theorem beq_name_false (f : Flag) (nm : String) (h : ¬(f.name == nm)) :
    (f.name == nm) = false := by
  revert h; cases f.name == nm <;> simp

theorem map_fresh_append (l : List Flag) (nm u dv : String) (fv0 fv : FlagVal)
    (dv2 : String) (h : ∀ f ∈ l, ¬(f.name == nm)) :
    (l ++ [Flag.mk nm u fv0 dv]).map
        (fun fl => if fl.name == nm then Flag.mk fl.name fl.usage fv dv2 else fl) =
      l ++ [Flag.mk nm u fv dv2] := by
  rw [List.map_append]
  congr 1
  · have hid : ∀ f ∈ l,
        (fun fl => if fl.name == nm then Flag.mk fl.name fl.usage fv dv2 else fl) f
          = id f := by
      intro f hf
      simp [beq_name_false f nm (h f hf)]
    rw [List.map_congr_left hid, List.map_id]
  · simp [Flag.name]

/-- Default application right after registering a fresh flag. -/
theorem applyDefault_defineFlag (fs : FlagSet) (nm u d : String) (fv0 : FlagVal)
    (h : fsLookup fs nm = none) :
    applyDefault (defineFlag fs nm fv0 u) nm d =
      match fv0.set d with
      | .ok fv =>
          .ok (FlagSet.mk (fs.flags ++ [Flag.mk nm u fv fv.str])
            fs.parsed fs.actual)
      | .error _ => .error "invalid default value" := by
  unfold applyDefault
  rw [fsLookup_defineFlag_self fs nm u fv0 h]
  dsimp only
  cases hset : FlagVal.set fv0 d with
  | error e => rfl
  | ok fv =>
      dsimp only
      simp only [mapFlag, defineFlag]
      rw [map_fresh_append fs.flags nm u fv0.str fv0 fv fv.str
        ((fsLookup_none_iff fs nm).mp h)]

/-- The field step of addFlags on a skipped (embedded or unexported)
field. -/
theorem addFlagsField_skip (fs : FlagSet) (vf : VField)
    (h : vf.field.anonymous = true ∨ vf.field.exported = false) :
    addFlagsField fs vf = .ok fs := by
  rw [addFlagsField]
  rcases h with h | h <;> rw [h] <;> simp

/-- The field step of addFlags on an untagged visible field. -/
theorem addFlagsField_untagged (fs : FlagSet) (vf : VField)
    (ha : vf.field.anonymous = false) (he : vf.field.exported = true)
    (ht : vf.field.tag = "") :
    addFlagsField fs vf =
      if kindOf (derefOnce vf.field.typ) = .structK then addFlags fs vf.field.typ
      else .ok fs := by
  rw [addFlagsField, ha, he, ht]
  simp

/-- The field step of addFlags on a tagged visible field with a
well-formed tag. -/
theorem addFlagsField_tagged (fs : FlagSet) (vf : VField)
    (nm d hlp : String)
    (ha : vf.field.anonymous = false) (he : vf.field.exported = true)
    (ht : vf.field.tag = nm ++ "," ++ d ++ "," ++ hlp)
    (h1 : ',' ∉ nm.data) (h2 : ',' ∉ d.data) :
    addFlagsField fs vf =
      if (fsLookup fs nm).isSome then .error "flag already defined"
      else
        match regFlagVal (derefOnce vf.field.typ) with
        | none => .error "invalid type for flag"
        | some fv0 =>
            if d = "" then .ok (defineFlag fs nm fv0 hlp)
            else applyDefault (defineFlag fs nm fv0 hlp) nm d := by
  rw [addFlagsField, ha, he]
  rw [if_neg (by decide : ¬((false || !true) = true))]
  dsimp only
  rw [ht, if_neg (tagBuild_ne_empty nm d hlp), parseTag_build nm d hlp h1 h2]

/-- The field step of getFlagIndexes on a skipped (embedded or
unexported) field. -/
theorem gfiField_skip (idx : List (String × List Nat)) (vf : VField)
    (pindex : List Nat)
    (h : vf.field.anonymous = true ∨ vf.field.exported = false) :
    gfiField idx vf pindex = .ok idx := by
  rw [gfiField]
  rcases h with h | h <;> rw [h] <;> simp

/-- The field step of getFlagIndexes on an untagged visible field. -/
theorem gfiField_untagged (idx : List (String × List Nat)) (vf : VField)
    (pindex : List Nat)
    (ha : vf.field.anonymous = false) (he : vf.field.exported = true)
    (ht : vf.field.tag = "") :
    gfiField idx vf pindex =
      if kindOf vf.field.typ = .structK then
        getFlagIndexes idx vf.field.typ (pindex ++ vf.index)
      else .ok idx := by
  rw [gfiField, ha, he, ht]
  simp

/-- The field step of getFlagIndexes on a tagged visible field with a
well-formed tag. -/
theorem gfiField_tagged (idx : List (String × List Nat)) (vf : VField)
    (pindex : List Nat) (nm d hlp : String)
    (ha : vf.field.anonymous = false) (he : vf.field.exported = true)
    (ht : vf.field.tag = nm ++ "," ++ d ++ "," ++ hlp)
    (h1 : ',' ∉ nm.data) (h2 : ',' ∉ d.data) :
    gfiField idx vf pindex =
      if (lookupIdx idx nm).isSome then .error "duplicate flag"
      else .ok (idx ++ [(nm, pindex ++ vf.index)]) := by
  rw [gfiField, ha, he]
  rw [if_neg (by decide : ¬((false || !true) = true))]
  dsimp only
  rw [ht, if_neg (tagBuild_ne_empty nm d hlp), parseTag_build nm d hlp h1 h2]

/-- A visible-field enumeration of a one-field struct whose field is not
embedded. -/
theorem visFields_single_nonanon (f : GoField) (ha : f.anonymous = false) :
    visFields [f] [] 0 = [VField.mk f [0]] := by
  rw [visFields, visFields]
  cases f with
  | mk nm a e t g =>
      simp only [GoField.anonymous] at ha
      subst ha
      simp [visAnon]

/-- addFlags on a one-field struct reduces to the single field step. -/
theorem addFlags_single_nonanon (fs : FlagSet) (f : GoField)
    (ha : f.anonymous = false) :
    addFlags fs (.struct_ [f]) = addFlagsField fs (VField.mk f [0]) := by
  rw [addFlags]
  simp only [visibleFields]
  rw [visFields_single_nonanon f ha]
  rw [addFlagsList.eq_def]
  dsimp only
  cases h : addFlagsField fs (VField.mk f [0]) with
  | error e => rfl
  | ok fs2 => dsimp only; rw [addFlagsList.eq_def]

/-- getFlagIndexes on a one-field struct reduces to the single field
step. -/
theorem gfi_single_nonanon (idx : List (String × List Nat)) (f : GoField)
    (pindex : List Nat) (ha : f.anonymous = false) :
    getFlagIndexes idx (.struct_ [f]) pindex = gfiField idx (VField.mk f [0]) pindex := by
  rw [getFlagIndexes]
  simp only [visibleFields]
  rw [visFields_single_nonanon f ha]
  rw [gfiList.eq_def]
  dsimp only
  cases h : gfiField idx (VField.mk f [0]) pindex with
  | error e => rfl
  | ok idx2 => dsimp only; rw [gfiList.eq_def]

/-- C10: on a record containing an un-annotated exported field of
pointer-to-record type, addFlags classifies the field by its dereferenced
kind (struct) and recurses passing the un-dereferenced pointer value, so
the recursive visible-fields enumeration fails fatally on the pointer
type, while getFlagIndexes tests the own (pointer) kind of the field and
silently skips it, succeeding with no new entries: the Registrar and
Index Builder traversals diverge on exactly this field shape. -/
theorem addFlags_gfi_diverge_on_pointer_struct (fname : String)
    (gs : List GoField) (fs : FlagSet) (idx : List (String × List Nat))
    (pindex : List Nat) :
    addFlags fs (.struct_ [.mk fname false true (.pointer (.struct_ gs)) ""]) =
      .error "reflect: VisibleFields of non-struct type" ∧
    getFlagIndexes idx
        (.struct_ [.mk fname false true (.pointer (.struct_ gs)) ""]) pindex =
      .ok idx := by
  constructor
  · rw [addFlags_single_nonanon fs
      (.mk fname false true (.pointer (.struct_ gs)) "") rfl]
    rw [addFlagsField_untagged fs
      (VField.mk (.mk fname false true (.pointer (.struct_ gs)) "") [0]) rfl rfl rfl]
    dsimp only [VField.field, GoField.typ, derefOnce, kindOf]
    rw [if_pos (by rfl)]
    rw [addFlags]
    rfl
  · rw [gfi_single_nonanon idx
      (.mk fname false true (.pointer (.struct_ gs)) "") pindex rfl]
    rw [gfiField_untagged idx
      (VField.mk (.mk fname false true (.pointer (.struct_ gs)) "") [0]) pindex rfl rfl rfl]
    dsimp only [VField.field, GoField.typ, kindOf]
    rw [if_neg (by decide : ¬(GoKind.pointerK = GoKind.structK))]

/-- C5 counterexample: in the record with an annotated record-typed field
S (tag o) containing an annotated field I (tag i), the Field-Index Builder
does not recurse into S: it indexes S itself as a leaf under o, and the
annotated descendant i receives no entry, contrary to the claim that every
nested-record field is descended regardless of its own annotation. -/
theorem gfi_annotated_struct_not_recursed_counterexample :
    getFlagIndexes []
        (.struct_ [.mk "S" false true
          (.struct_ [.mk "I" false true .int "i,,h"]) "o,,h"]) [] =
      .ok [("o", [0])] ∧
    lookupIdx [("o", [0])] "i" = none := by
  constructor
  · rw [gfi_single_nonanon []
      (.mk "S" false true (.struct_ [.mk "I" false true .int "i,,h"]) "o,,h") [] rfl]
    rw [gfiField_tagged []
      (VField.mk (.mk "S" false true (.struct_ [.mk "I" false true .int "i,,h"]) "o,,h") [0])
      [] "o" "" "h" rfl rfl (by decide) (by decide) (by decide)]
    rfl
  · rfl

/-- C5 amended: the Field-Index Builder recurses only into nested-record
fields that carry no annotation; an annotated record-typed field is
itself indexed as a leaf under its annotation name, with no entries for
its descendants, while an un-annotated record-typed field is descended
with the extended path prefix. -/
theorem gfi_recursion_rule (fname nm d hlp : String) (gs : List GoField)
    (idx : List (String × List Nat)) (pindex : List Nat)
    (h1 : ',' ∉ nm.data) (h2 : ',' ∉ d.data)
    (hfresh : lookupIdx idx nm = none) :
    getFlagIndexes idx
        (.struct_ [.mk fname false true (.struct_ gs) (nm ++ "," ++ d ++ "," ++ hlp)])
        pindex =
      .ok (idx ++ [(nm, pindex ++ [0])]) ∧
    getFlagIndexes idx (.struct_ [.mk fname false true (.struct_ gs) ""]) pindex =
      getFlagIndexes idx (.struct_ gs) (pindex ++ [0]) := by
  constructor
  · rw [gfi_single_nonanon idx
      (.mk fname false true (.struct_ gs) (nm ++ "," ++ d ++ "," ++ hlp)) pindex rfl]
    rw [gfiField_tagged idx
      (VField.mk (.mk fname false true (.struct_ gs) (nm ++ "," ++ d ++ "," ++ hlp)) [0])
      pindex nm d hlp rfl rfl rfl h1 h2]
    rw [hfresh]
    rfl
  · rw [gfi_single_nonanon idx
      (.mk fname false true (.struct_ gs) "") pindex rfl]
    rw [gfiField_untagged idx
      (VField.mk (.mk fname false true (.struct_ gs) "") [0]) pindex rfl rfl rfl]
    dsimp only [VField.field, VField.index, GoField.typ, kindOf]
    rw [if_pos (by rfl)]

/-- Witness for C5 amended at a concrete record: the annotated record
field is a leaf entry, the un-annotated record field is recursed into. -/
theorem gfi_recursion_rule_witness :
    getFlagIndexes []
        (.struct_ [.mk "S" false true
          (.struct_ [.mk "I" false true .int "i,,h"]) "o,,h"]) [] =
      .ok [("o", [0])] ∧
    getFlagIndexes []
        (.struct_ [.mk "S" false true
          (.struct_ [.mk "I" false true .int "i,,h"]) ""]) [] =
      getFlagIndexes [] (.struct_ [.mk "I" false true .int "i,,h"]) [0] :=
  gfi_recursion_rule "S" "o" "" "h" [.mk "I" false true .int "i,,h"] [] []
    (by decide) (by decide) rfl

/-- C3 counterexample: for a built-in int field whose tag has an empty
default segment, registration succeeds and leaves the flag with its
zero-initialized storage and DefValue 0, while parsing the empty default
string into that storage fails — so the claimed unconditional
parse-and-record of the default segment cannot have taken place at this
input (per the stated policy it would have been a fatal error). -/
theorem addFlags_empty_default_counterexample :
    addFlags emptyFS (.struct_ [.mk "N" false true .int "n,,h"]) =
      .ok (FlagSet.mk [Flag.mk "n" "h" (.intF 0) "0"] false []) ∧
    FlagVal.set (.intF 0) "" = .error "invalid int value" ∧
    ¬∃ fv : FlagVal, FlagVal.set (.intF 0) "" = .ok fv := by
  refine ⟨?_, by decide, ?_⟩
  · rw [addFlags_single_nonanon emptyFS (.mk "N" false true .int "n,,h") rfl]
    rw [addFlagsField_tagged emptyFS
      (VField.mk (.mk "N" false true .int "n,,h") [0]) "n" "" "h"
      rfl rfl (by decide) (by decide) (by decide)]
    decide
  · rintro ⟨fv, hfv⟩
    have : Except.error "invalid int value" = Except.ok fv := by
      rw [← hfv]; decide
    exact absurd this (by simp)

/-- C3 amended: for an annotated field of a non-custom (built-in) kind,
registration applies the default segment only when it is nonempty: a
nonempty default is parsed into the flag storage — fatally failing when
the parse fails — and the stringified result is recorded as the canonical
DefValue, while an empty default segment skips the application entirely,
leaving the zero-initialized storage and its stringification as
DefValue. -/
theorem addFlags_default_application (fs : FlagSet) (fname nm d hlp : String)
    (τ : GoType) (fv0 : FlagVal)
    (h1 : ',' ∉ nm.data) (h2 : ',' ∉ d.data)
    (hfresh : fsLookup fs nm = none)
    (hncust : implementsFlagValue (derefOnce τ) = false)
    (hreg : regFlagVal (derefOnce τ) = some fv0) :
    (d = "" →
      addFlags fs (.struct_ [.mk fname false true τ (nm ++ "," ++ d ++ "," ++ hlp)]) =
        .ok (FlagSet.mk (fs.flags ++ [Flag.mk nm hlp fv0 fv0.str])
          fs.parsed fs.actual)) ∧
    (∀ fv : FlagVal, fv0.set d = .ok fv → ¬d = "" →
      addFlags fs (.struct_ [.mk fname false true τ (nm ++ "," ++ d ++ "," ++ hlp)]) =
        .ok (FlagSet.mk (fs.flags ++ [Flag.mk nm hlp fv fv.str])
          fs.parsed fs.actual)) ∧
    (∀ e : String, fv0.set d = .error e → ¬d = "" →
      addFlags fs (.struct_ [.mk fname false true τ (nm ++ "," ++ d ++ "," ++ hlp)]) =
        .error "invalid default value") := by
  have hstep : addFlags fs
      (.struct_ [.mk fname false true τ (nm ++ "," ++ d ++ "," ++ hlp)]) =
      if d = "" then .ok (defineFlag fs nm fv0 hlp)
      else applyDefault (defineFlag fs nm fv0 hlp) nm d := by
    rw [addFlags_single_nonanon fs
      (.mk fname false true τ (nm ++ "," ++ d ++ "," ++ hlp)) rfl]
    rw [addFlagsField_tagged fs
      (VField.mk (.mk fname false true τ (nm ++ "," ++ d ++ "," ++ hlp)) [0])
      nm d hlp rfl rfl rfl h1 h2]
    dsimp only [VField.field, GoField.typ]
    rw [hfresh, hreg]
    rfl
  refine ⟨?_, ?_, ?_⟩
  · intro hd
    rw [hstep, if_pos hd]
    rfl
  · intro fv hset hd
    rw [hstep, if_neg hd, applyDefault_defineFlag fs nm hlp d fv0 hfresh, hset]
  · intro e hset hd
    rw [hstep, if_neg hd, applyDefault_defineFlag fs nm hlp d fv0 hfresh, hset]

/-- Witness for C3 amended at concrete inputs: an int field with an empty
default keeps the zero storage, with default 5 it stores 5 and records
DefValue 5, and with an unparsable default registration fails. -/
theorem addFlags_default_application_witness :
    addFlags emptyFS (.struct_ [.mk "N" false true .int "n,,h"]) =
      .ok (FlagSet.mk [Flag.mk "n" "h" (.intF 0) "0"] false []) ∧
    addFlags emptyFS (.struct_ [.mk "N" false true .int "n,5,h"]) =
      .ok (FlagSet.mk [Flag.mk "n" "h" (.intF 5) "5"] false []) ∧
    addFlags emptyFS (.struct_ [.mk "N" false true .int "n,zz,h"]) =
      .error "invalid default value" := by
  refine ⟨?_, ?_, ?_⟩
  · have := (addFlags_default_application emptyFS "N" "n" "" "h" .int (.intF 0)
      (by decide) (by decide) rfl rfl rfl).1 rfl
    exact this.trans (by decide)
  · have := ((addFlags_default_application emptyFS "N" "n" "5" "h" .int (.intF 0)
      (by decide) (by decide) rfl rfl rfl).2.1 (.intF 5) (by decide) (by decide))
    exact this.trans (by decide)
  · exact (addFlags_default_application emptyFS "N" "n" "zz" "h" .int (.intF 0)
      (by decide) (by decide) rfl rfl rfl).2.2 "invalid int value" (by decide) (by decide)

/-- C6: an annotated field whose once-dereferenced type is the duration
type — signed 64-bit kind with the time.Duration identity — is registered
as a duration flag (regFlagVal picks durationF, not the generic int64F
used for every other int64-kind type), its default segment is parsed by
the duration parser, and a default segment that duration parsing rejects
makes registration fail fatally. -/
theorem addFlags_duration_special_case (fs : FlagSet) (fname nm d hlp : String)
    (τ : GoType)
    (h1 : ',' ∉ nm.data) (h2 : ',' ∉ d.data)
    (hfresh : fsLookup fs nm = none)
    (hτ : derefOnce τ = .duration) :
    regFlagVal (derefOnce τ) = some (.durationF 0) ∧
    regFlagVal .int64 = some (.int64F 0) ∧
    (∀ i : Int, parseGoDuration d = some i →
      addFlags fs (.struct_ [.mk fname false true τ (nm ++ "," ++ d ++ "," ++ hlp)]) =
        .ok (FlagSet.mk
          (fs.flags ++ [Flag.mk nm hlp (.durationF i) (durationString i)])
          fs.parsed fs.actual)) ∧
    (parseGoDuration d = none → ¬d = "" →
      addFlags fs (.struct_ [.mk fname false true τ (nm ++ "," ++ d ++ "," ++ hlp)]) =
        .error "invalid default value") := by
  have hreg : regFlagVal (derefOnce τ) = some (.durationF 0) := by
    rw [hτ]; rfl
  refine ⟨hreg, rfl, ?_, ?_⟩
  · intro i hparse
    have hdne : ¬d = "" := by
      intro hd; subst hd
      have hnone : parseGoDuration "" = (none : Option Int) := by decide
      rw [hnone] at hparse
      exact Option.noConfusion hparse
    have hset : FlagVal.set (.durationF 0) d = .ok (.durationF i) := by
      rw [FlagVal.set, hparse]
    have := (addFlags_default_application fs fname nm d hlp τ (.durationF 0)
      h1 h2 hfresh (by rw [hτ]; rfl) hreg).2.1 (.durationF i) hset hdne
    exact this.trans (by rfl)
  · intro hparse hdne
    have hset : FlagVal.set (.durationF 0) d = .error "invalid duration value" := by
      rw [FlagVal.set, hparse]
    exact (addFlags_default_application fs fname nm d hlp τ (.durationF 0)
      h1 h2 hfresh (by rw [hτ]; rfl) hreg).2.2 "invalid duration value" hset hdne

/-- Witness for C6 at the concrete annotations of the spec: the field
registers a duration flag with canonical default 5s, and the unparsable
default fails registration. -/
theorem addFlags_duration_special_case_witness :
    addFlags emptyFS
        (.struct_ [.mk "T" false true .duration "timeout,5s,request timeout"]) =
      .ok (FlagSet.mk [Flag.mk "timeout" "request timeout"
        (.durationF 5000000000) "5s"] false []) ∧
    addFlags emptyFS
        (.struct_ [.mk "T" false true .duration "timeout,notaduration,request timeout"]) =
      .error "invalid default value" := by
  constructor
  · have := (addFlags_duration_special_case emptyFS "T" "timeout" "5s"
      "request timeout" .duration (by decide) (by decide) rfl rfl).2.2.1
      5000000000 (by decide)
    exact this.trans (by decide)
  · exact (addFlags_duration_special_case emptyFS "T" "timeout" "notaduration"
      "request timeout" .duration (by decide) (by decide) rfl rfl).2.2.2
      (by decide) (by decide)

/-- Witness for C8 at concrete inputs: a help segment keeps its commas,
and a one-comma annotation is rejected. -/
theorem parseTag_splits_witness :
    (∃ n d h, parseTag "a,b,c,d" = some (n, d, h) ∧
      n ++ "," ++ d ++ "," ++ h = "a,b,c,d" ∧
      n.data.count ',' = 0 ∧ d.data.count ',' = 0) ∧
    parseTag "name,deflt" = none :=
  ⟨(parseTag_splits_on_first_two_commas "a,b,c,d").1 (by decide),
   (parseTag_splits_on_first_two_commas "name,deflt").2 (by decide)⟩

/-- Shared characterization of the synchronizer step on a bound flag:
skip exactly under the three-part write-skip condition, otherwise
reconcile and write the obtained value. -/
theorem syncStep_bound_eq (explicit : List String)
    (idx : List (String × List Nat)) (v : GoValue) (fl : Flag)
    (index : List Nat) (fiv : GoValue)
    (hidx : lookupIdx idx fl.name = some index)
    (hget : getPath v index = some fiv) :
    syncStep explicit idx v fl =
      if !isZero fiv && fl.value.str == fl.defValue
          && !explicit.contains fl.name then .ok v
      else writeRecon v index fiv (flagObtained fl.value) := by
  rw [syncStep, hidx]
  dsimp only
  rw [hget]
  rfl

/-- C1: in SetFromFlags, for a visited flag whose name is bound in the
field-path index, the write into the record is skipped if and only if the
target field currently holds a non-zero value AND the current stringified
flag value equals the canonical flag default AND the flag was not
explicitly supplied on the command line; in every other case the
(possibly coerced) obtained flag value is reconciled and written at the
field path. -/
theorem syncStep_write_skip_policy (explicit : List String)
    (idx : List (String × List Nat)) (v : GoValue) (fl : Flag)
    (index : List Nat) (fiv : GoValue)
    (hidx : lookupIdx idx fl.name = some index)
    (hget : getPath v index = some fiv) :
    syncStep explicit idx v fl =
      if !isZero fiv && fl.value.str == fl.defValue
          && !explicit.contains fl.name then .ok v
      else writeRecon v index fiv (flagObtained fl.value) :=
  syncStep_bound_eq explicit idx v fl index fiv hidx hget

/-- Witness for C1 at concrete inputs: a non-zero field with an untouched
default-valued flag is skipped; once the same flag name is recorded as
explicitly supplied, the flag value is written over the field. -/
theorem syncStep_write_skip_policy_witness :
    syncStep [] [("x", [0])]
        (.vStruct [.mk "X" false true .int "x,,h"] [.vInt 3])
        (Flag.mk "x" "h" (.intF 0) "0") =
      .ok (.vStruct [.mk "X" false true .int "x,,h"] [.vInt 3]) ∧
    syncStep ["x"] [("x", [0])]
        (.vStruct [.mk "X" false true .int "x,,h"] [.vInt 3])
        (Flag.mk "x" "h" (.intF 0) "0") =
      .ok (.vStruct [.mk "X" false true .int "x,,h"] [.vInt 0]) := by
  constructor
  · have := syncStep_write_skip_policy [] [("x", [0])]
      (.vStruct [.mk "X" false true .int "x,,h"] [.vInt 3])
      (Flag.mk "x" "h" (.intF 0) "0") [0] (.vInt 3) rfl rfl
    exact this.trans (by rfl)
  · have := syncStep_write_skip_policy ["x"] [("x", [0])]
      (.vStruct [.mk "X" false true .int "x,,h"] [.vInt 3])
      (Flag.mk "x" "h" (.intF 0) "0") [0] (.vInt 3) rfl rfl
    exact this.trans (by rfl)

/-- C7: the value a bound flag synchronizes from is obtained by
preferring the Getter capability when the flag storage exposes one, and
falling back to the raw storage handle otherwise; in particular a bound
flag whose storage lacks the capability — a custom value without Getter —
is still synchronized, not skipped: unless the write-skip rule applies,
its handle value is reconciled and written. -/
theorem syncStep_obtains_value (explicit : List String)
    (idx : List (String × List Nat)) (v : GoValue) (fl : Flag)
    (index : List Nat) (fiv : GoValue)
    (hidx : lookupIdx idx fl.name = some index)
    (hget : getPath v index = some fiv) :
    (∀ g, fl.value.get = some g →
      syncStep explicit idx v fl =
        if !isZero fiv && fl.value.str == fl.defValue
            && !explicit.contains fl.name then .ok v
        else writeRecon v index fiv g) ∧
    (fl.value.get = none →
      syncStep explicit idx v fl =
        if !isZero fiv && fl.value.str == fl.defValue
            && !explicit.contains fl.name then .ok v
        else writeRecon v index fiv fl.value.handle) ∧
    (∀ c st, fl.value = .customF c st → c.hasGetter = false →
      (!isZero fiv && fl.value.str == fl.defValue
          && !explicit.contains fl.name) = false →
      syncStep explicit idx v fl =
        writeRecon v index fiv (.vPointer (.custom c) (some (.vCustom c st)))) := by
  have hbase := syncStep_bound_eq explicit idx v fl index fiv hidx hget
  refine ⟨?_, ?_, ?_⟩
  · intro g hg
    rw [hbase]
    rw [flagObtained, hg]
  · intro hg
    rw [hbase]
    rw [flagObtained, hg]
  · intro c st hval hng hskip
    rw [hbase, hskip]
    rw [if_neg (by simp)]
    rw [hval]
    simp only [flagObtained, FlagVal.get, hng]
    rfl

/-- Witness for C7 at a concrete input: a custom flag storage without
Getter still synchronizes a zero custom field through its handle. -/
theorem syncStep_obtains_value_witness :
    FlagVal.get (.customF (CustomType.mk 0 false) "fast") = none ∧
    syncStep [] [("m", [0])]
        (.vStruct [.mk "M" false true (.custom (CustomType.mk 0 false)) "m,fast,h"]
          [.vCustom (CustomType.mk 0 false) ""])
        (Flag.mk "m" "h" (.customF (CustomType.mk 0 false) "fast") "") =
      .ok (.vStruct [.mk "M" false true (.custom (CustomType.mk 0 false)) "m,fast,h"]
        [.vCustom (CustomType.mk 0 false) "fast"]) := by
  constructor
  · rfl
  · have := (syncStep_obtains_value [] [("m", [0])]
      (.vStruct [.mk "M" false true (.custom (CustomType.mk 0 false)) "m,fast,h"]
        [.vCustom (CustomType.mk 0 false) ""])
      (Flag.mk "m" "h" (.customF (CustomType.mk 0 false) "fast") "")
      [0] (.vCustom (CustomType.mk 0 false) "") rfl rfl).2.2
      (CustomType.mk 0 false) "fast" rfl rfl (by decide)
    exact this.trans (by rfl)

/-- C2 counterexample: in a two-field record with both fields at zero,
registering flags a (empty default) and b (default 5), explicitly
assigning 7 to a on the command line and synchronizing leaves field A
holding 7 as the claim states — but field B, whose flag was never
supplied, ends holding the decoded flag default 5 rather than remaining
at its zero value, because the write-skip rule does not protect a field
that is still zero. -/
theorem roundtrip_counterexample :
    addFlags emptyFS
        (.struct_ [.mk "A" false true .int "a,,ha", .mk "B" false true .int "b,5,hb"]) =
      .ok (FlagSet.mk [Flag.mk "a" "ha" (.intF 0) "0", Flag.mk "b" "hb" (.intF 5) "5"]
        false []) ∧
    simulateParse
        (FlagSet.mk [Flag.mk "a" "ha" (.intF 0) "0", Flag.mk "b" "hb" (.intF 5) "5"]
          false []) "a" "7" =
      .ok (FlagSet.mk [Flag.mk "a" "ha" (.intF 7) "0", Flag.mk "b" "hb" (.intF 5) "5"]
        true ["a"]) ∧
    setFromFlags
        (zeroVal (.struct_ [.mk "A" false true .int "a,,ha", .mk "B" false true .int "b,5,hb"]))
        (FlagSet.mk [Flag.mk "a" "ha" (.intF 7) "0", Flag.mk "b" "hb" (.intF 5) "5"]
          true ["a"]) =
      .ok (.vStruct [.mk "A" false true .int "a,,ha", .mk "B" false true .int "b,5,hb"]
        [.vInt 7, .vInt 5]) ∧
    isZero (.vInt 5) = false := by
  refine ⟨?_, by decide, ?_, by decide⟩
  · simp [addFlags, addFlagsList, addFlagsField, visibleFields, visFields, visAnon,
      parseTag, splitN, splitNAux, breakAt, fsLookup, regFlagVal, applyDefault,
      defineFlag, mapFlag, emptyFS, derefOnce, kindOf, implementsFlagValue,
      GoField.tag, GoField.anonymous, GoField.exported, GoField.typ, GoField.name,
      VField.field, VField.index, FlagVal.set, FlagVal.str, parseGoInt, decDigits,
      digitsNat, digitsNatAux]
    decide
  · have hidx : getFlagIndexes []
        (.struct_ [.mk "A" false true .int "a,,ha", .mk "B" false true .int "b,5,hb"])
        [] = .ok [("a", [0]), ("b", [1])] := by
      simp [getFlagIndexes, gfiList, gfiField, visibleFields, visFields, visAnon,
        parseTag, splitN, splitNAux, breakAt, lookupIdx, kindOf,
        GoField.tag, GoField.anonymous, GoField.exported, GoField.typ, GoField.name,
        VField.field, VField.index]
    rw [setFromFlags]
    dsimp only [zeroVal, zeroVals, valueType, GoField.typ]
    rw [hidx]
    rfl

/-! Embedded-field behavior of the two traversals. -/

/-- Two visible fields whose steps agree trivially: equal, or both
embedded (an embedded field is skipped whatever its tag says). -/
def vfSkipEq (a b : VField) : Prop :=
  a = b ∨ (a.field.anonymous = true ∧ b.field.anonymous = true)

theorem vfSkipEq_refl (a : VField) : vfSkipEq a a := Or.inl rfl

theorem addFlagsList_congr (l1 l2 : List VField)
    (h : List.Forall₂ vfSkipEq l1 l2) :
    ∀ fs : FlagSet, addFlagsList fs l1 = addFlagsList fs l2 := by
  induction h with
  | nil => intro fs; rfl
  | @cons a b l1t l2t hab htail ih =>
      intro fs
      rw [addFlagsList.eq_def]
      conv_rhs => rw [addFlagsList.eq_def]
      dsimp only
      rcases hab with hab | ⟨ha1, ha2⟩
      · subst hab
        cases hstep : addFlagsField fs a with
        | error e => rfl
        | ok fs2 => exact ih fs2
      · rw [addFlagsField_skip fs a (Or.inl ha1),
          addFlagsField_skip fs b (Or.inl ha2)]
        exact ih fs

theorem gfiList_congr (l1 l2 : List VField)
    (h : List.Forall₂ vfSkipEq l1 l2) :
    ∀ (idx : List (String × List Nat)) (pindex : List Nat),
      gfiList idx l1 pindex = gfiList idx l2 pindex := by
  induction h with
  | nil => intro idx pindex; rfl
  | @cons a b l1t l2t hab htail ih =>
      intro idx pindex
      rw [gfiList.eq_def]
      conv_rhs => rw [gfiList.eq_def]
      dsimp only
      rcases hab with hab | ⟨ha1, ha2⟩
      · subst hab
        cases hstep : gfiField idx a pindex with
        | error e => rfl
        | ok idx2 => exact ih idx2 pindex
      · rw [gfiField_skip idx a pindex (Or.inl ha1),
          gfiField_skip idx b pindex (Or.inl ha2)]
        exact ih idx pindex

theorem visFields_append (xs ys : List GoField) (pfx : List Nat) :
    ∀ i : Nat, visFields (xs ++ ys) pfx i =
      visFields xs pfx i ++ visFields ys pfx (i + xs.length) := by
  induction xs with
  | nil => intro i; simp [visFields]
  | cons f rest ih =>
      intro i
      rw [List.cons_append, visFields, visFields, ih (i + 1)]
      have hx : i + 1 + rest.length = i + (f :: rest).length := by
        simp [List.length_cons]; omega
      rw [hx]
      simp [List.append_assoc]

/-- The promoted fields contributed by an embedded field do not depend on
its tag. -/
theorem visAnon_tag_irrel (n : String) (a e : Bool) (t : GoType)
    (g1 g2 : String) (pfx : List Nat) :
    visAnon (.mk n a e t g1) pfx = visAnon (.mk n a e t g2) pfx := rfl

/-- addFlags on a struct type unfolds to the visible-field fold. -/
theorem addFlags_struct (fs : FlagSet) (gs : List GoField) :
    addFlags fs (.struct_ gs) = addFlagsList fs (visFields gs [] 0) := by
  rw [addFlags]
  rfl

/-- getFlagIndexes on a struct type unfolds to the visible-field fold. -/
theorem gfi_struct (idx : List (String × List Nat)) (gs : List GoField)
    (pindex : List Nat) :
    getFlagIndexes idx (.struct_ gs) pindex =
      gfiList idx (visFields gs [] 0) pindex := by
  rw [getFlagIndexes]
  rfl

theorem visFields_anon_tag_forall2 (pre post : List GoField) (n : String)
    (e : Bool) (t : GoType) (g1 g2 : String) :
    List.Forall₂ vfSkipEq
      (visFields (pre ++ .mk n true e t g1 :: post) [] 0)
      (visFields (pre ++ .mk n true e t g2 :: post) [] 0) := by
  rw [visFields_append, visFields_append]
  apply List.rel_append
  · exact (List.forall₂_same).mpr (fun x _ => vfSkipEq_refl x)
  · rw [visFields, visFields]
    apply List.Forall₂.cons
    · exact Or.inr ⟨rfl, rfl⟩
    · rw [visAnon_tag_irrel n true e t g1 g2]
      exact (List.forall₂_same).mpr (fun x _ => vfSkipEq_refl x)

/-- C9: in both addFlags and the index-building pass of SetFromFlags, an
embedded (anonymous) field is skipped as a field in its own right
whatever annotation it carries — the result of either traversal is
invariant under arbitrary replacement of the tag of an embedded field,
so such a tag is never parsed, registered, or indexed, not even a
malformed one — while the fields promoted from an embedded record appear
among the visible fields and are processed normally: in the concrete
record with an embedded struct E carrying the malformed tag bad (no
commas) and a promoted annotated field X, registration succeeds and
registers exactly the flag x, and indexing succeeds mapping x to the
promoted path through E. -/
theorem anonymous_fields_skipped_promoted_processed (fs : FlagSet)
    (idx : List (String × List Nat)) (pindex : List Nat)
    (pre post : List GoField) (n : String) (e : Bool) (t : GoType)
    (g1 g2 : String) :
    addFlags fs (.struct_ (pre ++ .mk n true e t g1 :: post)) =
      addFlags fs (.struct_ (pre ++ .mk n true e t g2 :: post)) ∧
    getFlagIndexes idx (.struct_ (pre ++ .mk n true e t g1 :: post)) pindex =
      getFlagIndexes idx (.struct_ (pre ++ .mk n true e t g2 :: post)) pindex ∧
    addFlags emptyFS
        (.struct_ [.mk "E" true true
          (.struct_ [.mk "X" false true .int "x,,h"]) "bad"]) =
      .ok (FlagSet.mk [Flag.mk "x" "h" (.intF 0) "0"] false []) ∧
    getFlagIndexes []
        (.struct_ [.mk "E" true true
          (.struct_ [.mk "X" false true .int "x,,h"]) "bad"]) [] =
      .ok [("x", [0, 0])] := by
  refine ⟨?_, ?_, ?_, ?_⟩
  · rw [addFlags_struct, addFlags_struct]
    exact addFlagsList_congr _ _
      (visFields_anon_tag_forall2 pre post n e t g1 g2) fs
  · rw [gfi_struct, gfi_struct]
    exact gfiList_congr _ _
      (visFields_anon_tag_forall2 pre post n e t g1 g2) idx pindex
  · simp [addFlags, addFlagsList, addFlagsField, visibleFields, visFields, visAnon,
      parseTag, splitN, splitNAux, breakAt, fsLookup, regFlagVal, applyDefault,
      defineFlag, mapFlag, emptyFS, derefOnce, kindOf, implementsFlagValue,
      GoField.tag, GoField.anonymous, GoField.exported, GoField.typ, GoField.name,
      VField.field, VField.index, FlagVal.set, FlagVal.str]
    decide
  · simp [getFlagIndexes, gfiList, gfiField, visibleFields, visFields, visAnon,
      parseTag, splitN, splitNAux, breakAt, lookupIdx, kindOf,
      GoField.tag, GoField.anonymous, GoField.exported, GoField.typ, GoField.name,
      VField.field, VField.index]

/-! Pure characterization of the two traversals: the list of annotated
leaves a successful pass visits, in visit order. -/

/-- One annotated leaf of the record shape: the structural path of its
field relative to the root, the field itself, and the three parsed tag
segments. -/
structure Leaf where
  path : List Nat
  field : GoField
  name : String
  deflt : String
  help : String

theorem visFields_typ_size_struct (gs : List GoField) :
    ∀ vf ∈ visFields gs [] 0, tySize vf.field.typ < tySize (.struct_ gs) :=
  visibleFields_ok_size (.struct_ gs) (visFields gs [] 0) rfl

mutual
/-- Annotated leaves of a type, in the visit order shared by addFlags and
getFlagIndexes on inputs where both succeed: recursion into untagged
fields of struct kind (after one pointer dereference, mirroring
addFlags; getFlagIndexes skips the pointer case, which contributes no
leaves either way), one leaf per parseable tag, nothing for embedded,
unexported, or malformed-tag fields. -/
def leavesT : GoType → List Leaf
  | .struct_ gs => leavesList (visFields gs [] 0)
  | _ => []
termination_by t => (tySize t, 0, 0)
decreasing_by
  exact Prod.Lex.left _ _
    (vfsBound_lt (visFields gs [] 0) (tySize (.struct_ gs))
      (visFields_typ_size_struct gs) (tySize_pos _))

/-- Leaves of a visible-field list. -/
def leavesList : List VField → List Leaf
  | [] => []
  | vf :: rest => leavesField vf ++ leavesList rest
termination_by l => (vfsBound l, 1, l.length)
decreasing_by
  · have hle : tySize vf.field.typ ≤ vfsBound (vf :: rest) := by
      simp [vfsBound]
    rcases Nat.lt_or_ge (tySize vf.field.typ) (vfsBound (vf :: rest)) with hlt | hge
    · exact Prod.Lex.left _ _ hlt
    · have heq : tySize vf.field.typ = vfsBound (vf :: rest) :=
        Nat.le_antisymm hle hge
      rw [heq]
      exact Prod.Lex.right _ (Prod.Lex.left _ _ (by omega))
  · have hle : vfsBound rest ≤ vfsBound (vf :: rest) := by
      simp [vfsBound]
    rcases Nat.lt_or_ge (vfsBound rest) (vfsBound (vf :: rest)) with hlt | hge
    · exact Prod.Lex.left _ _ hlt
    · have heq : vfsBound rest = vfsBound (vf :: rest) := Nat.le_antisymm hle hge
      rw [heq]
      exact Prod.Lex.right _ (Prod.Lex.right _ (by simp))

/-- Leaves contributed by one visible field. -/
def leavesField : VField → List Leaf
  | vf =>
      if vf.field.anonymous || !vf.field.exported then []
      else if vf.field.tag = "" then
        if kindOf (derefOnce vf.field.typ) = .structK then
          (leavesT vf.field.typ).map
            (fun l => Leaf.mk (vf.index ++ l.path) l.field l.name l.deflt l.help)
        else []
      else
        match parseTag vf.field.tag with
        | none => []
        | some (nm, d, h) => [Leaf.mk vf.index vf.field nm d h]
termination_by vf => (tySize vf.field.typ, 0, 1)
decreasing_by
  exact Prod.Lex.right _ (Prod.Lex.right _ (by omega))
end

/-- The flag a successful registration produces for one annotated leaf;
the fallback branches are unreachable when registration succeeded. -/
def flagOf (l : Leaf) : Flag :=
  match regFlagVal (derefOnce l.field.typ) with
  | none => Flag.mk l.name l.help (.boolF false) ""
  | some fv0 =>
      if l.deflt = "" then Flag.mk l.name l.help fv0 fv0.str
      else
        match fv0.set l.deflt with
        | .ok fv => Flag.mk l.name l.help fv fv.str
        | .error _ => Flag.mk l.name l.help fv0 fv0.str

mutual
/-- Whether every tag the index-building traversal parses is well
formed. -/
def tagsOkT : GoType → Bool
  | .struct_ gs => tagsOkList (visFields gs [] 0)
  | _ => true
termination_by t => (tySize t, 0, 0)
decreasing_by
  exact Prod.Lex.left _ _
    (vfsBound_lt (visFields gs [] 0) (tySize (.struct_ gs))
      (visFields_typ_size_struct gs) (tySize_pos _))

/-- tagsOk over a visible-field list. -/
def tagsOkList : List VField → Bool
  | [] => true
  | vf :: rest => tagsOkField vf && tagsOkList rest
termination_by l => (vfsBound l, 1, l.length)
decreasing_by
  · have hle : tySize vf.field.typ ≤ vfsBound (vf :: rest) := by
      simp [vfsBound]
    rcases Nat.lt_or_ge (tySize vf.field.typ) (vfsBound (vf :: rest)) with hlt | hge
    · exact Prod.Lex.left _ _ hlt
    · have heq : tySize vf.field.typ = vfsBound (vf :: rest) :=
        Nat.le_antisymm hle hge
      rw [heq]
      exact Prod.Lex.right _ (Prod.Lex.left _ _ (by omega))
  · have hle : vfsBound rest ≤ vfsBound (vf :: rest) := by
      simp [vfsBound]
    rcases Nat.lt_or_ge (vfsBound rest) (vfsBound (vf :: rest)) with hlt | hge
    · exact Prod.Lex.left _ _ hlt
    · have heq : vfsBound rest = vfsBound (vf :: rest) := Nat.le_antisymm hle hge
      rw [heq]
      exact Prod.Lex.right _ (Prod.Lex.right _ (by simp))

/-- tagsOk for one visible field, following the recursion rule of
getFlagIndexes (struct test on the undereferenced type). -/
def tagsOkField : VField → Bool
  | vf =>
      if vf.field.anonymous || !vf.field.exported then true
      else if vf.field.tag = "" then
        if kindOf vf.field.typ = .structK then tagsOkT vf.field.typ else true
      else (parseTag vf.field.tag).isSome
termination_by vf => (tySize vf.field.typ, 0, 1)
decreasing_by
  exact Prod.Lex.right _ (Prod.Lex.right _ (by omega))
end

/-- Shape of a flag storage cell as the Go type its Getter reports (for
built-ins) or the custom type itself; flag.Value.Set never changes it. -/
def fvShape : FlagVal → GoType
  | .boolF _ => .bool
  | .intF _ => .int
  | .uintF _ => .uint
  | .int64F _ => .int64
  | .uint64F _ => .uint64
  | .durationF _ => .duration
  | .float64F _ => .float64
  | .stringF _ => .str
  | .customF c _ => .custom c

/-- Pure mirror of the value computation of writeRecon when the target
field value has type τ: the reconciled value the synchronizer writes. -/
def reconVal (τ : GoType) (flv : GoValue) : Except String GoValue :=
  if tyBeq τ (valueType flv) then .ok flv
  else
    let tgt : GoType :=
      match τ with
      | .pointer e => e
      | _ => τ
    let viaPtr : Bool :=
      match τ with
      | .pointer _ => true
      | _ => false
    let flv2 : Except String GoValue :=
      match flv with
      | .vPointer _ (some w) => .ok w
      | .vPointer _ none => .error "nil pointer dereference"
      | w => .ok w
    match flv2 with
    | .error e => .error e
    | .ok w =>
        let w2 : Except String GoValue :=
          if tyBeq (valueType w) tgt then .ok w
          else
            match convertVal w tgt with
            | some u => .ok u
            | none => .error "value not convertible"
        match w2 with
        | .error e => .error e
        | .ok u => .ok (if viaPtr then .vPointer tgt (some u) else u)

/-! Basic lemmas about leaves, zero values, and structural paths. -/

theorem flagOf_name (l : Leaf) : (flagOf l).name = l.name := by
  unfold flagOf
  cases regFlagVal (derefOnce l.field.typ) with
  | none => rfl
  | some fv0 =>
      dsimp only
      by_cases hd : l.deflt = ""
      · rw [if_pos hd]
      · rw [if_neg hd]
        cases fv0.set l.deflt <;> rfl

theorem flagOf_prepend (p : List Nat) (l : Leaf) :
    flagOf (Leaf.mk (p ++ l.path) l.field l.name l.deflt l.help) = flagOf l := by
  cases l; rfl

theorem leafName_prepend_map (p : List Nat) (ls : List Leaf) :
    ((ls.map (fun l => Leaf.mk (p ++ l.path) l.field l.name l.deflt l.help)).map
      Leaf.name) = ls.map Leaf.name := by
  rw [List.map_map]
  rfl

theorem valueType_zeroVal (τ : GoType) : valueType (zeroVal τ) = τ := by
  cases τ <;> rfl

mutual
theorem isZero_zeroVal : ∀ τ : GoType, isZero (zeroVal τ) = true
  | .bool => rfl
  | .int => rfl
  | .uint => rfl
  | .int8 => rfl
  | .int16 => rfl
  | .int32 => rfl
  | .int64 => rfl
  | .duration => rfl
  | .uint8 => rfl
  | .uint16 => rfl
  | .uint32 => rfl
  | .uint64 => rfl
  | .float32 => by rw [zeroVal, isZero]; decide
  | .float64 => by rw [zeroVal, isZero]; decide
  | .str => rfl
  | .struct_ fs => by rw [zeroVal, isZero]; exact allZero_zeroVals fs
  | .pointer e => rfl
  | .custom c => rfl

theorem allZero_zeroVals : ∀ fs : List GoField, allZero (zeroVals fs) = true
  | [] => rfl
  | .mk n a e t g :: fs => by
      rw [zeroVals, allZero, isZero_zeroVal t, allZero_zeroVals fs]
      rfl
end

theorem zeroVals_get (gs : List GoField) :
    ∀ k, (zeroVals gs).get? k = (gs.get? k).map (fun f => zeroVal f.typ) := by
  induction gs with
  | nil => intro k; cases k <;> rfl
  | cons f rest ih =>
      intro k
      cases f with
      | mk n a e t g =>
          cases k with
          | zero => rfl
          | succ k => rw [zeroVals]; exact ih k

theorem getPath_append (p : List Nat) :
    ∀ (q : List Nat) (v : GoValue),
      getPath v (p ++ q) = (getPath v p).bind (fun w => getPath w q) := by
  induction p with
  | nil => intro q v; cases v <;> rfl
  | cons i p ih =>
      intro q v
      cases v
      case vStruct fs vs =>
        rw [List.cons_append, getPath]
        cases h : vs.get? i with
        | none => rw [getPath]; rw [h]; rfl
        | some w => rw [getPath, h]; exact ih q w
      all_goals rfl

/-- Prefix order on structural paths. -/
def PathPre (p q : List Nat) : Prop := ∃ r, p ++ r = q

/-- Structural disjointness of two paths: neither reaches into the
other. -/
def PathDisj (p q : List Nat) : Prop := ¬PathPre p q ∧ ¬PathPre q p

theorem pathDisj_symm (p q : List Nat) (h : PathDisj p q) : PathDisj q p :=
  ⟨h.2, h.1⟩

theorem pathPre_extend : ∀ (p q x y : List Nat),
    PathPre (p ++ x) (q ++ y) → PathPre p q ∨ PathPre q p := by
  intro p
  induction p with
  | nil => intro q x y _; exact Or.inl ⟨q, rfl⟩
  | cons i p ih =>
      intro q x y h
      cases q with
      | nil => exact Or.inr ⟨i :: p, rfl⟩
      | cons j q =>
          rcases h with ⟨r, hr⟩
          rw [List.cons_append, List.cons_append, List.cons_append] at hr
          injection hr with h1 h2
          subst h1
          rcases ih q x y ⟨r, by rw [List.append_assoc] at h2 ⊢; exact h2⟩ with h | h
          · rcases h with ⟨s, hs⟩
            exact Or.inl ⟨s, by rw [List.cons_append, hs]⟩
          · rcases h with ⟨s, hs⟩
            exact Or.inr ⟨s, by rw [List.cons_append, hs]⟩

theorem pathDisj_extend (p q x y : List Nat) (h : PathDisj p q) :
    PathDisj (p ++ x) (q ++ y) := by
  constructor
  · intro hpre
    rcases pathPre_extend p q x y hpre with hc | hc
    · exact h.1 hc
    · exact h.2 hc
  · intro hpre
    rcases pathPre_extend q p y x hpre with hc | hc
    · exact h.2 hc
    · exact h.1 hc

theorem pathDisj_prepend (r p q : List Nat) (h : PathDisj p q) :
    PathDisj (r ++ p) (r ++ q) := by
  constructor
  · rintro ⟨s, hs⟩
    rw [List.append_assoc] at hs
    exact h.1 ⟨s, List.append_cancel_left hs⟩
  · rintro ⟨s, hs⟩
    rw [List.append_assoc] at hs
    exact h.2 ⟨s, List.append_cancel_left hs⟩

theorem pathDisj_cons_ne (i j : Nat) (tp tq : List Nat) (hij : ¬i = j) :
    PathDisj (i :: tp) (j :: tq) := by
  constructor
  · rintro ⟨r, hr⟩
    rw [List.cons_append] at hr
    injection hr with h1 _
    exact hij h1
  · rintro ⟨r, hr⟩
    rw [List.cons_append] at hr
    injection hr with h1 _
    exact hij h1.symm

theorem get?_set_ne {α : Type} : ∀ (l : List α) (i j : Nat) (x : α),
    ¬i = j → (l.set i x).get? j = l.get? j := by
  intro l
  induction l with
  | nil => intro i j x _; cases i <;> rfl
  | cons a rest ih =>
      intro i j x hij
      cases i with
      | zero =>
          cases j with
          | zero => exact absurd rfl hij
          | succ j => rfl
      | succ i =>
          cases j with
          | zero => rfl
          | succ j => rw [List.set]; exact ih i j x (fun h => hij (by rw [h]))

theorem get?_set_self {α : Type} : ∀ (l : List α) (i : Nat) (u x : α),
    l.get? i = some u → (l.set i x).get? i = some x := by
  intro l
  induction l with
  | nil => intro i u x h; cases i <;> simp [List.get?] at h
  | cons a rest ih =>
      intro i u x h
      cases i with
      | zero => rfl
      | succ i => rw [List.set]; exact ih i u x h

theorem setPath_of_getPath : ∀ (p : List Nat) (v fiv w : GoValue),
    getPath v p = some fiv → ∃ v2, setPath v p w = some v2 := by
  intro p
  induction p with
  | nil => intro v fiv w _; exact ⟨w, by cases v <;> rfl⟩
  | cons i p ih =>
      intro v fiv w h
      cases v
      case vStruct fs vs =>
        rw [getPath] at h
        cases hg : vs.get? i with
        | none => rw [hg] at h; simp at h
        | some u =>
            rw [hg] at h
            dsimp only at h
            rcases ih u fiv w h with ⟨u2, hu2⟩
            refine ⟨.vStruct fs (vs.set i u2), ?_⟩
            rw [setPath, hg]
            dsimp only
            rw [hu2]
      all_goals simp only [getPath] at h
      all_goals exact Option.noConfusion h

theorem getPath_setPath_self : ∀ (p : List Nat) (v w v2 : GoValue),
    setPath v p w = some v2 → getPath v2 p = some w := by
  intro p
  induction p with
  | nil =>
      intro v w v2 h
      have hval : setPath v [] w = some w := by cases v <;> rfl
      rw [hval] at h
      injection h with h
      rw [← h]
      cases w <;> rfl
  | cons i p ih =>
      intro v w v2 h
      cases v
      case vStruct fs vs =>
        rw [setPath] at h
        cases hg : vs.get? i with
        | none => rw [hg] at h; simp at h
        | some u =>
            rw [hg] at h
            dsimp only at h
            cases hs : setPath u p w with
            | none => rw [hs] at h; simp at h
            | some u2 =>
                rw [hs] at h
                dsimp only at h
                injection h with h
                rw [← h, getPath, get?_set_self vs i u u2 hg]
                exact ih u w u2 hs
      all_goals simp only [setPath] at h
      all_goals exact Option.noConfusion h

theorem getPath_setPath_frame : ∀ (p : List Nat) (v w v2 : GoValue)
    (q : List Nat), setPath v p w = some v2 → PathDisj p q →
    getPath v2 q = getPath v q := by
  intro p
  induction p with
  | nil =>
      intro v w v2 q _ hdisj
      exact absurd ⟨q, rfl⟩ hdisj.1
  | cons i p ih =>
      intro v w v2 q h hdisj
      cases q with
      | nil => exact absurd ⟨i :: p, rfl⟩ hdisj.2
      | cons j q =>
          cases v
          case vStruct fs vs =>
            rw [setPath] at h
            cases hg : vs.get? i with
            | none => rw [hg] at h; simp at h
            | some u =>
                rw [hg] at h
                dsimp only at h
                cases hs : setPath u p w with
                | none => rw [hs] at h; simp at h
                | some u2 =>
                    rw [hs] at h
                    dsimp only at h
                    injection h with h
                    rw [← h]
                    by_cases hij : i = j
                    · subst hij
                      rw [getPath, getPath,
                        get?_set_self vs i u u2 hg, hg]
                      have hdisj2 : PathDisj p q := by
                        constructor
                        · rintro ⟨r, hr⟩
                          exact hdisj.1 ⟨r, by rw [List.cons_append, hr]⟩
                        · rintro ⟨r, hr⟩
                          exact hdisj.2 ⟨r, by rw [List.cons_append, hr]⟩
                      exact ih u w u2 q hs hdisj2
                    · rw [getPath, getPath, get?_set_ne vs i j u2 hij]
          all_goals simp only [setPath] at h
          all_goals exact Option.noConfusion h

/-! Success characterization of addFlags: a successful registration pass
appends exactly the flags of the annotated leaves, with fresh and
pairwise distinct names. -/

/-- Conditions under which registering one leaf succeeds. -/
def RegOK (l : Leaf) : Prop :=
  ∃ fv0, regFlagVal (derefOnce l.field.typ) = some fv0 ∧
    (¬l.deflt = "" → ∃ fv, fv0.set l.deflt = .ok fv)

/-- Conclusion bundle of the addFlags characterization. -/
def AddChar (fs fs' : FlagSet) (ls : List Leaf) : Prop :=
  fs'.flags = fs.flags ++ ls.map flagOf ∧
  fs'.parsed = fs.parsed ∧ fs'.actual = fs.actual ∧
  (ls.map Leaf.name).Nodup ∧
  (∀ l ∈ ls, fsLookup fs l.name = none ∧ RegOK l)

theorem names_map_flagOf (ls : List Leaf) :
    (ls.map flagOf).map Flag.name = ls.map Leaf.name := by
  rw [List.map_map]
  exact List.map_congr_left (fun l _ => flagOf_name l)

theorem lookup_none_of_append (A X : List Flag) (p : Bool) (a : List String)
    (p2 : Bool) (a2 : List String) (n : String)
    (h : fsLookup (FlagSet.mk (A ++ X) p a) n = none) :
    fsLookup (FlagSet.mk A p2 a2) n = none := by
  rw [fsLookup_none_iff] at h ⊢
  intro f hf
  exact h f (by simp [List.mem_append]; exact Or.inl hf)

theorem addFlags_nonstruct (fs : FlagSet) (t : GoType)
    (h : ∀ gs : List GoField, ¬t = .struct_ gs) :
    addFlags fs t = .error "reflect: VisibleFields of non-struct type" := by
  rw [addFlags]
  cases t
  case struct_ gs => exact absurd rfl (h gs)
  all_goals rfl

theorem kindOf_structK (t : GoType) (h : kindOf t = .structK) :
    ∃ gs, t = .struct_ gs := by
  cases t
  case struct_ gs => exact ⟨gs, rfl⟩
  all_goals exact absurd h (by simp [kindOf])

mutual
theorem addFlags_char (fs : FlagSet) (t : GoType) (fs' : FlagSet)
    (h : addFlags fs t = .ok fs') :
    AddChar fs fs' (leavesT t) ∧ tagsOkT t = true := by
  cases t
  case struct_ gs =>
    rw [addFlags] at h
    dsimp only [visibleFields] at h
    rw [leavesT.eq_def, tagsOkT.eq_def]
    dsimp only
    exact addFlagsList_char fs (visFields gs [] 0) fs' h
  all_goals rw [addFlags_nonstruct fs _ (by intro gs hgs; cases hgs)] at h
  all_goals exact Except.noConfusion h
termination_by (tySize t, 0, 0)
decreasing_by
  simp_wf
  subst t
  exact Prod.Lex.left _ _
    (vfsBound_lt _ _ (visFields_typ_size_struct _) (tySize_pos _))

theorem addFlagsList_char (fs : FlagSet) (l : List VField) (fs' : FlagSet)
    (h : addFlagsList fs l = .ok fs') :
    AddChar fs fs' (leavesList l) ∧ tagsOkList l = true := by
  match l with
  | [] =>
      rw [addFlagsList.eq_def] at h
      dsimp only at h
      injection h with h
      subst h
      rw [leavesList.eq_def, tagsOkList.eq_def]
      refine ⟨⟨by simp, rfl, rfl, by simp, ?_⟩, rfl⟩
      intro l hl
      exact absurd hl (List.not_mem_nil l)
  | vf :: rest =>
      rw [addFlagsList.eq_def] at h
      dsimp only at h
      cases hstep : addFlagsField fs vf with
      | error e => rw [hstep] at h; exact Except.noConfusion h
      | ok fs2 =>
          rw [hstep] at h
          dsimp only at h
          rcases addFlagsField_char fs vf fs2 hstep with
            ⟨⟨hfl, hpar, hact, hnd, hfr⟩, hto⟩
          rcases addFlagsList_char fs2 rest fs' h with
            ⟨⟨hfl2, hpar2, hact2, hnd2, hfr2⟩, hto2⟩
          rw [leavesList.eq_def, tagsOkList.eq_def]
          dsimp only
          refine ⟨⟨?_, ?_, ?_, ?_, ?_⟩, by simp [hto, hto2]⟩
          · rw [hfl2, hfl, List.map_append, List.append_assoc]
          · rw [hpar2, hpar]
          · rw [hact2, hact]
          · rw [List.map_append]
            rw [List.nodup_append]
            refine ⟨hnd, hnd2, ?_⟩
            intro nmx hmem1 hmem2
            rcases List.mem_map.mp hmem2 with ⟨l2, hl2, hl2n⟩
            have hlk2 := (hfr2 l2 hl2).1
            rw [fsLookup_none_iff] at hlk2
            rcases List.mem_map.mp hmem1 with ⟨l1, hl1, hl1n⟩
            have hmemflag : flagOf l1 ∈ fs2.flags := by
              rw [hfl]
              exact List.mem_append_right _ (List.mem_map_of_mem flagOf hl1)
            have hcontra := hlk2 (flagOf l1) hmemflag
            rw [flagOf_name, hl1n, hl2n] at hcontra
            simp at hcontra
          · intro l hl
            rcases List.mem_append.mp hl with hl | hl
            · exact hfr l hl
            · have h2 := hfr2 l hl
              refine ⟨?_, h2.2⟩
              have hshape : fs2.flags = fs.flags ++ (leavesField vf).map flagOf := hfl
              have hlk := h2.1
              cases fs with
              | mk A p a =>
                  cases fs2 with
                  | mk B p2 a2 =>
                      dsimp only at hshape
                      subst hshape
                      exact lookup_none_of_append A _ p2 a2 p a l.name hlk
termination_by (vfsBound l, 1, l.length)
decreasing_by
  · have hle : tySize vf.field.typ ≤ vfsBound (vf :: rest) := by
      simp [vfsBound]
    rcases Nat.lt_or_ge (tySize vf.field.typ) (vfsBound (vf :: rest)) with hlt | hge
    · exact Prod.Lex.left _ _ hlt
    · have heq : tySize vf.field.typ = vfsBound (vf :: rest) :=
        Nat.le_antisymm hle hge
      rw [heq]
      exact Prod.Lex.right _ (Prod.Lex.left _ _ (by omega))
  · have hle : vfsBound rest ≤ vfsBound (vf :: rest) := by
      simp [vfsBound]
    rcases Nat.lt_or_ge (vfsBound rest) (vfsBound (vf :: rest)) with hlt | hge
    · exact Prod.Lex.left _ _ hlt
    · have heq : vfsBound rest = vfsBound (vf :: rest) := Nat.le_antisymm hle hge
      rw [heq]
      exact Prod.Lex.right _ (Prod.Lex.right _ (by simp))

theorem addFlagsField_char (fs : FlagSet) (vf : VField) (fs' : FlagSet)
    (h : addFlagsField fs vf = .ok fs') :
    AddChar fs fs' (leavesField vf) ∧ tagsOkField vf = true := by
  rw [addFlagsField] at h
  rw [leavesField.eq_def, tagsOkField.eq_def]
  by_cases hskip : (vf.field.anonymous || !vf.field.exported) = true
  · rw [if_pos hskip] at h ⊢
    rw [if_pos hskip]
    injection h with h
    subst h
    refine ⟨⟨by simp, rfl, rfl, by simp, ?_⟩, rfl⟩
    intro l hl
    exact absurd hl (List.not_mem_nil l)
  · rw [if_neg hskip] at h ⊢
    rw [if_neg hskip]
    by_cases htag : vf.field.tag = ""
    · rw [if_pos htag] at h ⊢
      rw [if_pos htag]
      by_cases hkind : kindOf (derefOnce vf.field.typ) = .structK
      · rw [if_pos hkind] at h ⊢
        rcases addFlags_char fs vf.field.typ fs' h with
          ⟨⟨hfl, hpar, hact, hnd, hfr⟩, hts⟩
        have hts2 : (if kindOf vf.field.typ = .structK then tagsOkT vf.field.typ
            else true) = true := by
          by_cases hk2 : kindOf vf.field.typ = .structK
          · rw [if_pos hk2]; exact hts
          · rw [if_neg hk2]
        refine ⟨⟨?_, hpar, hact, ?_, ?_⟩, hts2⟩
        · rw [hfl]
          congr 1
          rw [List.map_map]
          exact (List.map_congr_left
            (fun l _ => (flagOf_prepend vf.index l).symm)).symm
        · rw [leafName_prepend_map]
          exact hnd
        · intro l2 hl2
          rcases List.mem_map.mp hl2 with ⟨l, hl, hleq⟩
          have hfrl := hfr l hl
          rw [← hleq]
          exact ⟨hfrl.1, hfrl.2⟩
      · rw [if_neg hkind] at h ⊢
        injection h with h
        subst h
        have hts2 : (if kindOf vf.field.typ = .structK then tagsOkT vf.field.typ
            else true) = true := by
          by_cases hk2 : kindOf vf.field.typ = .structK
          · rcases kindOf_structK _ hk2 with ⟨gs, hgs⟩
            rw [hgs] at hkind
            exact absurd rfl hkind
          · rw [if_neg hk2]
        refine ⟨⟨by simp, rfl, rfl, by simp, ?_⟩, hts2⟩
        intro l hl
        exact absurd hl (List.not_mem_nil l)
    · rw [if_neg htag] at h ⊢
      rw [if_neg htag]
      cases hpt : parseTag vf.field.tag with
      | none => rw [hpt] at h; dsimp only at h; exact Except.noConfusion h
      | some trip =>
          rcases trip with ⟨nm, d, hlp⟩
          rw [hpt] at h
          dsimp only at h ⊢
          cases hlk : (fsLookup fs nm).isSome with
          | true =>
              rw [hlk, if_pos rfl] at h
              exact Except.noConfusion h
          | false =>
              rw [hlk, if_neg (by simp : ¬(false = true))] at h
              have hlknone : fsLookup fs nm = none := by
                cases hx : fsLookup fs nm with
                | none => rfl
                | some f => rw [hx] at hlk; simp at hlk
              cases hreg : regFlagVal (derefOnce vf.field.typ) with
              | none => rw [hreg] at h; exact Except.noConfusion h
              | some fv0 =>
                  rw [hreg] at h
                  dsimp only at h
                  by_cases hd : d = ""
                  · rw [if_pos hd] at h
                    injection h with h
                    subst h
                    refine ⟨⟨?_, rfl, rfl, by simp, ?_⟩, rfl⟩
                    · rw [List.map_singleton]
                      show (defineFlag fs nm fv0 hlp).flags =
                        fs.flags ++ [flagOf (Leaf.mk vf.index vf.field nm d hlp)]
                      rw [defineFlag]
                      congr 1
                      rw [flagOf]
                      dsimp only
                      rw [hreg]
                      dsimp only
                      rw [if_pos hd]
                    · intro l hl
                      rcases List.mem_singleton.mp hl with rfl
                      refine ⟨hlknone, fv0, hreg, ?_⟩
                      intro hdne
                      exact absurd hd hdne
                  · rw [if_neg hd] at h
                    rw [applyDefault_defineFlag fs nm hlp d fv0 hlknone] at h
                    cases hset : fv0.set d with
                    | error e => rw [hset] at h; exact Except.noConfusion h
                    | ok fv =>
                        rw [hset] at h
                        dsimp only at h
                        injection h with h
                        subst h
                        refine ⟨⟨?_, rfl, rfl, by simp, ?_⟩, rfl⟩
                        · dsimp only
                          rw [List.map_singleton]
                          congr 1
                          rw [flagOf]
                          dsimp only
                          rw [hreg]
                          dsimp only
                          rw [if_neg hd, hset]
                        · intro l hl
                          rcases List.mem_singleton.mp hl with rfl
                          exact ⟨hlknone, fv0, hreg, fun _ => ⟨fv, hset⟩⟩
termination_by (tySize vf.field.typ, 0, 1)
decreasing_by
  exact Prod.Lex.right _ (Prod.Lex.right _ (by omega))
end

/-! Characterization of getFlagIndexes: when every traversed tag parses
and the leaf names are fresh and pairwise distinct, the index builder
appends exactly one name-to-path entry per annotated leaf; conversely a
successful pass certifies those conditions. -/

theorem lookupIdx_none_iff (idx : List (String × List Nat)) (n : String) :
    lookupIdx idx n = none ↔ ∀ e ∈ idx, ¬(e.1 = n) := by
  rw [lookupIdx]
  cases hf : idx.find? (fun p => p.1 == n) with
  | some p =>
      dsimp only
      constructor
      · intro hcon; exact Option.noConfusion hcon
      · intro hall
        have hp := List.find?_some hf
        have hmem := List.mem_of_find?_eq_some hf
        simp only [beq_iff_eq] at hp
        exact absurd hp (hall p hmem)
  | none =>
      dsimp only
      constructor
      · intro _ e he
        have hx := List.find?_eq_none.mp hf e he
        simpa using hx
      · intro _; rfl

theorem lookupIdx_append_none (idx e2 : List (String × List Nat)) (n : String)
    (h1 : lookupIdx idx n = none) (h2 : ∀ x ∈ e2, ¬(x.1 = n)) :
    lookupIdx (idx ++ e2) n = none := by
  rw [lookupIdx_none_iff] at h1 ⊢
  intro x hx
  rcases List.mem_append.mp hx with hx | hx
  · exact h1 x hx
  · exact h2 x hx

theorem lookupIdx_append_none_left (idx e2 : List (String × List Nat)) (n : String)
    (h : lookupIdx (idx ++ e2) n = none) : lookupIdx idx n = none := by
  rw [lookupIdx_none_iff] at h ⊢
  intro x hx
  exact h x (List.mem_append.mpr (Or.inl hx))

theorem lookupIdx_append_none_right (idx e2 : List (String × List Nat)) (n : String)
    (h : lookupIdx (idx ++ e2) n = none) : ∀ x ∈ e2, ¬(x.1 = n) := by
  rw [lookupIdx_none_iff] at h
  intro x hx
  exact h x (List.mem_append.mpr (Or.inr hx))

/-- Freshness and distinctness conditions under which the index-building
fold succeeds on a list of leaves. -/
def GfiOK (idx : List (String × List Nat)) (ls : List Leaf) : Prop :=
  (ls.map Leaf.name).Nodup ∧ ∀ l ∈ ls, lookupIdx idx l.name = none

/-- The index entries one indexing pass appends: one name-to-path binding
per annotated leaf, below the prefix pfx. -/
def leafEntries (pfx : List Nat) (ls : List Leaf) : List (String × List Nat) :=
  ls.map (fun l => (l.name, pfx ++ l.path))

theorem leafEntries_names (pfx : List Nat) (ls : List Leaf) :
    (leafEntries pfx ls).map Prod.fst = ls.map Leaf.name := by
  rw [leafEntries, List.map_map]
  rfl

theorem leafEntries_append (pfx : List Nat) (a b : List Leaf) :
    leafEntries pfx (a ++ b) = leafEntries pfx a ++ leafEntries pfx b := by
  rw [leafEntries, leafEntries, leafEntries, List.map_append]

theorem leafEntries_prepend (pfx q : List Nat) (ls : List Leaf) :
    leafEntries pfx (ls.map
        (fun l => Leaf.mk (q ++ l.path) l.field l.name l.deflt l.help)) =
      leafEntries (pfx ++ q) ls := by
  rw [leafEntries, leafEntries, List.map_map]
  apply List.map_congr_left
  intro l _
  simp [Function.comp, List.append_assoc]

theorem leavesT_nonstruct (t : GoType)
    (h : ∀ gs : List GoField, ¬t = .struct_ gs) : leavesT t = [] := by
  rw [leavesT.eq_def]
  cases t
  case struct_ gs => exact absurd rfl (h gs)
  all_goals rfl

theorem gfi_nonstruct (idx : List (String × List Nat)) (t : GoType)
    (pfx : List Nat) (h : ∀ gs : List GoField, ¬t = .struct_ gs) :
    getFlagIndexes idx t pfx =
      .error "reflect: VisibleFields of non-struct type" := by
  rw [getFlagIndexes]
  cases t
  case struct_ gs => exact absurd rfl (h gs)
  all_goals rfl

mutual
theorem gfi_suff (idx : List (String × List Nat)) (gs : List GoField)
    (pfx : List Nat) (ht : tagsOkT (.struct_ gs) = true)
    (hok : GfiOK idx (leavesT (.struct_ gs))) :
    getFlagIndexes idx (.struct_ gs) pfx =
      .ok (idx ++ leafEntries pfx (leavesT (.struct_ gs))) := by
  rw [getFlagIndexes]
  dsimp only [visibleFields]
  rw [leavesT.eq_def] at hok ⊢
  rw [tagsOkT.eq_def] at ht
  exact gfiList_suff idx (visFields gs [] 0) pfx ht hok
termination_by (tySize (GoType.struct_ gs), 0, 0)
decreasing_by
  exact Prod.Lex.left _ _
    (vfsBound_lt _ _ (visFields_typ_size_struct _) (tySize_pos _))

theorem gfiList_suff (idx : List (String × List Nat)) (l : List VField)
    (pfx : List Nat) (ht : tagsOkList l = true)
    (hok : GfiOK idx (leavesList l)) :
    gfiList idx l pfx = .ok (idx ++ leafEntries pfx (leavesList l)) := by
  match l with
  | [] =>
      rw [gfiList.eq_def, leavesList.eq_def]
      dsimp only
      simp [leafEntries]
  | vf :: rest =>
      rw [tagsOkList.eq_def] at ht
      dsimp only at ht
      rw [Bool.and_eq_true] at ht
      rw [leavesList.eq_def] at hok
      dsimp only at hok
      rcases hok with ⟨hnd, hfr⟩
      rw [List.map_append, List.nodup_append] at hnd
      rcases hnd with ⟨hndA, hndB, hdisj⟩
      have hokA : GfiOK idx (leavesField vf) :=
        ⟨hndA, fun l2 hl2 => hfr l2 (List.mem_append.mpr (Or.inl hl2))⟩
      have hstep := gfiField_suff idx vf pfx ht.1 hokA
      rw [gfiList.eq_def]
      dsimp only
      rw [hstep]
      dsimp only
      have hokB : GfiOK (idx ++ leafEntries pfx (leavesField vf))
          (leavesList rest) := by
        refine ⟨hndB, ?_⟩
        intro l2 hl2
        refine lookupIdx_append_none _ _ _
          (hfr l2 (List.mem_append.mpr (Or.inr hl2))) ?_
        intro x hx
        rcases List.mem_map.mp hx with ⟨l3, hl3, hx3⟩
        rw [← hx3]
        dsimp only
        intro heq
        apply hdisj (List.mem_map_of_mem Leaf.name hl3)
        rw [heq]
        exact List.mem_map_of_mem Leaf.name hl2
      have hrec := gfiList_suff (idx ++ leafEntries pfx (leavesField vf))
        rest pfx ht.2 hokB
      have hLL : leavesList (vf :: rest) = leavesField vf ++ leavesList rest := by
        rw [leavesList.eq_def]
      rw [hrec, hLL, leafEntries_append, ← List.append_assoc]
termination_by (vfsBound l, 1, l.length)
decreasing_by
  · have hle : tySize vf.field.typ ≤ vfsBound (vf :: rest) := by
      simp [vfsBound]
    rcases Nat.lt_or_ge (tySize vf.field.typ) (vfsBound (vf :: rest)) with hlt | hge
    · exact Prod.Lex.left _ _ hlt
    · have heq : tySize vf.field.typ = vfsBound (vf :: rest) :=
        Nat.le_antisymm hle hge
      rw [heq]
      exact Prod.Lex.right _ (Prod.Lex.left _ _ (by omega))
  · have hle : vfsBound rest ≤ vfsBound (vf :: rest) := by
      simp [vfsBound]
    rcases Nat.lt_or_ge (vfsBound rest) (vfsBound (vf :: rest)) with hlt | hge
    · exact Prod.Lex.left _ _ hlt
    · have heq : vfsBound rest = vfsBound (vf :: rest) := Nat.le_antisymm hle hge
      rw [heq]
      exact Prod.Lex.right _ (Prod.Lex.right _ (by simp))

theorem gfiField_suff (idx : List (String × List Nat)) (vf : VField)
    (pfx : List Nat) (ht : tagsOkField vf = true)
    (hok : GfiOK idx (leavesField vf)) :
    gfiField idx vf pfx = .ok (idx ++ leafEntries pfx (leavesField vf)) := by
  rw [gfiField.eq_def]
  rw [leavesField.eq_def] at hok ⊢
  rw [tagsOkField.eq_def] at ht
  by_cases hskip : (vf.field.anonymous || !vf.field.exported) = true
  · rw [if_pos hskip] at hok ⊢
    rw [if_pos hskip]
    simp [leafEntries]
  · rw [if_neg hskip] at ht hok ⊢
    rw [if_neg hskip]
    by_cases htag : vf.field.tag = ""
    · rw [if_pos htag] at ht hok ⊢
      rw [if_pos htag]
      by_cases hkd : kindOf (derefOnce vf.field.typ) = .structK
      · rw [if_pos hkd] at hok ⊢
        by_cases hk : kindOf vf.field.typ = .structK
        · rcases kindOf_structK _ hk with ⟨gs, hgs⟩
          rw [if_pos hk] at ht ⊢
          have hok2 : GfiOK idx (leavesT vf.field.typ) := by
            refine ⟨?_, ?_⟩
            · rw [← leafName_prepend_map vf.index (leavesT vf.field.typ)]
              exact hok.1
            · intro l2 hl2
              have := hok.2 _ (List.mem_map_of_mem
                (fun l => Leaf.mk (vf.index ++ l.path) l.field l.name l.deflt l.help)
                hl2)
              exact this
          rw [hgs] at ht hok2 ⊢
          rw [gfi_suff idx gs (pfx ++ vf.index) ht hok2]
          rw [← hgs, leafEntries_prepend]
        · rw [if_neg hk]
          have hleaves : leavesT vf.field.typ = [] := by
            refine leavesT_nonstruct _ ?_
            intro gs2 hgs2
            rw [hgs2] at hk
            exact hk rfl
          rw [hleaves]
          simp [leafEntries]
      · rw [if_neg hkd]
        have hk : ¬kindOf vf.field.typ = .structK := by
          intro hk2
          rcases kindOf_structK _ hk2 with ⟨gs2, hgs2⟩
          rw [hgs2] at hkd
          exact hkd rfl
        rw [if_neg hk]
        simp [leafEntries]
    · rw [if_neg htag] at ht hok ⊢
      rw [if_neg htag]
      cases hpt : parseTag vf.field.tag with
      | none => rw [hpt] at ht; exact Bool.noConfusion ht
      | some trip =>
          rcases trip with ⟨nm, d, hp2⟩
          rw [hpt] at hok
          dsimp only at hok ⊢
          have hlknone : lookupIdx idx nm = none :=
            hok.2 (Leaf.mk vf.index vf.field nm d hp2) (List.mem_singleton.mpr rfl)
          rw [hlknone]
          dsimp only [Option.isSome]
          rw [if_neg (by simp : ¬(false = true))]
          rfl
termination_by (tySize vf.field.typ, 0, 1)
decreasing_by
  simp_wf
  rw [hgs]
  exact Prod.Lex.right _ (Prod.Lex.right _ (by omega))
end

mutual
theorem gfi_nec (idx : List (String × List Nat)) (gs : List GoField)
    (pfx : List Nat) (idx2 : List (String × List Nat))
    (h : getFlagIndexes idx (.struct_ gs) pfx = .ok idx2) :
    tagsOkT (.struct_ gs) = true ∧ GfiOK idx (leavesT (.struct_ gs)) := by
  rw [getFlagIndexes] at h
  dsimp only [visibleFields] at h
  rw [tagsOkT.eq_def, leavesT.eq_def]
  dsimp only
  exact gfiList_nec idx (visFields gs [] 0) pfx idx2 h
termination_by (tySize (GoType.struct_ gs), 0, 0)
decreasing_by
  exact Prod.Lex.left _ _
    (vfsBound_lt _ _ (visFields_typ_size_struct _) (tySize_pos _))

theorem gfiList_nec (idx : List (String × List Nat)) (l : List VField)
    (pfx : List Nat) (idx2 : List (String × List Nat))
    (h : gfiList idx l pfx = .ok idx2) :
    tagsOkList l = true ∧ GfiOK idx (leavesList l) := by
  match l with
  | [] =>
      rw [tagsOkList.eq_def, leavesList.eq_def]
      refine ⟨rfl, by simp, ?_⟩
      intro l2 hl2
      exact absurd hl2 (List.not_mem_nil l2)
  | vf :: rest =>
      rw [gfiList.eq_def] at h
      dsimp only at h
      cases hstep : gfiField idx vf pfx with
      | error e => rw [hstep] at h; exact Except.noConfusion h
      | ok idxm =>
          rw [hstep] at h
          dsimp only at h
          rcases gfiField_nec idx vf pfx idxm hstep with ⟨htA, hokA⟩
          rcases gfiList_nec idxm rest pfx idx2 h with ⟨htB, hokB⟩
          have hval := gfiField_suff idx vf pfx htA hokA
          rw [hstep] at hval
          injection hval with hval
          subst hval
          rw [tagsOkList.eq_def, leavesList.eq_def]
          dsimp only
          rcases hokA with ⟨hndA, hfrA⟩
          rcases hokB with ⟨hndB, hfrB⟩
          refine ⟨by rw [htA, htB]; rfl, ?_, ?_⟩
          · rw [List.map_append, List.nodup_append]
            refine ⟨hndA, hndB, ?_⟩
            intro x hx1 hx2
            rcases List.mem_map.mp hx2 with ⟨l2, hl2, hl2n⟩
            have hfr2 := hfrB l2 hl2
            have hx1b : x ∈ (leafEntries pfx (leavesField vf)).map Prod.fst := by
              rw [leafEntries_names]; exact hx1
            rcases List.mem_map.mp hx1b with ⟨y, hy, hyx⟩
            have hno := lookupIdx_append_none_right idx _ l2.name hfr2 y hy
            rw [hyx, hl2n] at hno
            exact hno rfl
          · intro l2 hl2
            rcases List.mem_append.mp hl2 with hl2 | hl2
            · exact hfrA l2 hl2
            · exact lookupIdx_append_none_left idx _ l2.name (hfrB l2 hl2)
termination_by (vfsBound l, 1, l.length)
decreasing_by
  · have hle : tySize vf.field.typ ≤ vfsBound (vf :: rest) := by
      simp [vfsBound]
    rcases Nat.lt_or_ge (tySize vf.field.typ) (vfsBound (vf :: rest)) with hlt | hge
    · exact Prod.Lex.left _ _ hlt
    · have heq : tySize vf.field.typ = vfsBound (vf :: rest) :=
        Nat.le_antisymm hle hge
      rw [heq]
      exact Prod.Lex.right _ (Prod.Lex.left _ _ (by omega))
  · have hle : vfsBound rest ≤ vfsBound (vf :: rest) := by
      simp [vfsBound]
    rcases Nat.lt_or_ge (vfsBound rest) (vfsBound (vf :: rest)) with hlt | hge
    · exact Prod.Lex.left _ _ hlt
    · have heq : vfsBound rest = vfsBound (vf :: rest) := Nat.le_antisymm hle hge
      rw [heq]
      exact Prod.Lex.right _ (Prod.Lex.right _ (by simp))

theorem gfiField_nec (idx : List (String × List Nat)) (vf : VField)
    (pfx : List Nat) (idx2 : List (String × List Nat))
    (h : gfiField idx vf pfx = .ok idx2) :
    tagsOkField vf = true ∧ GfiOK idx (leavesField vf) := by
  rw [gfiField.eq_def] at h
  rw [tagsOkField.eq_def, leavesField.eq_def]
  by_cases hskip : (vf.field.anonymous || !vf.field.exported) = true
  · rw [if_pos hskip]
    rw [if_pos hskip]
    refine ⟨rfl, by simp, ?_⟩
    intro l2 hl2
    exact absurd hl2 (List.not_mem_nil l2)
  · rw [if_neg hskip] at h ⊢
    rw [if_neg hskip]
    by_cases htag : vf.field.tag = ""
    · rw [if_pos htag] at h ⊢
      rw [if_pos htag]
      by_cases hk : kindOf vf.field.typ = .structK
      · rw [if_pos hk] at h ⊢
        rcases kindOf_structK _ hk with ⟨gs, hgs⟩
        rw [hgs] at h
        rcases gfi_nec idx gs (pfx ++ vf.index) idx2 h with ⟨ht2, hok2⟩
        rw [← hgs] at ht2 hok2
        have hkd : kindOf (derefOnce vf.field.typ) = .structK := by
          rw [hgs]; rfl
        rw [if_pos hkd]
        refine ⟨ht2, ?_, ?_⟩
        · rw [leafName_prepend_map]
          exact hok2.1
        · intro l2 hl2
          rcases List.mem_map.mp hl2 with ⟨l3, hl3, hleq⟩
          rw [← hleq]
          exact hok2.2 l3 hl3
      · rw [if_neg hk] at h
        by_cases hkd : kindOf (derefOnce vf.field.typ) = .structK
        · rw [if_pos hkd]
          have hleaves : leavesT vf.field.typ = [] := by
            refine leavesT_nonstruct _ ?_
            intro gs2 hgs2
            rw [hgs2] at hk
            exact hk rfl
          rw [hleaves, if_neg hk]
          refine ⟨rfl, by simp, ?_⟩
          intro l2 hl2
          simp at hl2
        · rw [if_neg hkd, if_neg hk]
          refine ⟨rfl, by simp, ?_⟩
          intro l2 hl2
          exact absurd hl2 (List.not_mem_nil l2)
    · rw [if_neg htag] at h ⊢
      rw [if_neg htag]
      cases hpt : parseTag vf.field.tag with
      | none => rw [hpt] at h; dsimp only at h; exact Except.noConfusion h
      | some trip =>
          rcases trip with ⟨nm, d, hp2⟩
          rw [hpt] at h
          dsimp only at h ⊢
          cases hlk : (lookupIdx idx nm).isSome with
          | true => rw [hlk, if_pos rfl] at h; exact Except.noConfusion h
          | false =>
              have hlknone : lookupIdx idx nm = none := by
                cases hx : lookupIdx idx nm with
                | none => rfl
                | some y => rw [hx] at hlk; simp at hlk
              refine ⟨rfl, by simp, ?_⟩
              intro l2 hl2
              rcases List.mem_singleton.mp hl2 with rfl
              exact hlknone
termination_by (tySize vf.field.typ, 0, 1)
decreasing_by
  simp_wf
  rw [hgs]
  exact Prod.Lex.right _ (Prod.Lex.right _ (by omega))
end

/-! Reading the zero value of the record along leaf paths. -/

theorem getPath_zeroStruct (gs : List GoField) (j : Nat) :
    getPath (zeroVal (.struct_ gs)) [j] =
      (gs.get? j).map (fun f => zeroVal f.typ) := by
  have h := zeroVals_get gs j
  rw [zeroVal, getPath, h]
  cases gs.get? j with
  | none => rfl
  | some f =>
      dsimp only [Option.map]
      cases hz : zeroVal f.typ <;> rfl

theorem visFields_zero :
    ∀ (n : Nat) (gs : List GoField) (pfx : List Nat) (i : Nat) (root : GoValue),
      fieldsSize gs ≤ n →
      (∀ j, getPath root (pfx ++ [i + j]) =
        (gs.get? j).map (fun f => zeroVal f.typ)) →
      ∀ vf ∈ visFields gs pfx i,
        getPath root vf.index = some (zeroVal vf.field.typ) := by
  intro n
  induction n with
  | zero =>
      intro gs pfx i root hle hctx vf hmem
      cases gs with
      | nil => simp [visFields] at hmem
      | cons f rest =>
          simp only [fieldsSize] at hle
          have h1 := fieldSize_typ f
          have h2 := tySize_pos f.typ
          omega
  | succ n ih =>
      intro gs pfx i root hle hctx vf hmem
      cases gs with
      | nil => simp [visFields] at hmem
      | cons f rest =>
          simp only [visFields, List.mem_cons, List.mem_append] at hmem
          rcases hmem with h | h | h
          · subst h
            have h0 := hctx 0
            rw [Nat.add_zero] at h0
            exact h0
          · rcases mem_visAnon_cases f (pfx ++ [i]) vf h with ⟨gs2, hty, hanon, hmem2⟩
            have h0 := hctx 0
            rw [Nat.add_zero] at h0
            simp only [List.get?, Option.map] at h0
            refine ih gs2 (pfx ++ [i]) 0 root ?_ ?_ vf hmem2
            · have hsz : tySize f.typ = 1 + fieldsSize gs2 := by rw [hty]; rfl
              have hf := fieldSize_typ f
              simp only [fieldsSize] at hle
              omega
            · intro j
              rw [Nat.zero_add, getPath_append (pfx ++ [i]) [j] root, h0]
              dsimp only [Option.bind]
              rw [hty]
              exact getPath_zeroStruct gs2 j
          · refine ih rest pfx (i + 1) root ?_ ?_ vf h
            · simp only [fieldsSize] at hle
              omega
            · intro j
              have hc := hctx (j + 1)
              rw [show i + (j + 1) = i + 1 + j from by omega] at hc
              exact hc

theorem visFields_zero_root (gs : List GoField) :
    ∀ vf ∈ visFields gs [] 0,
      getPath (zeroVal (.struct_ gs)) vf.index = some (zeroVal vf.field.typ) := by
  intro vf hvf
  refine visFields_zero (fieldsSize gs) gs [] 0 (zeroVal (.struct_ gs))
    (Nat.le_refl _) ?_ vf hvf
  intro j
  rw [Nat.zero_add]
  exact getPath_zeroStruct gs j

mutual
theorem leavesT_zero (t : GoType) :
    ∀ l ∈ leavesT t, getPath (zeroVal t) l.path = some (zeroVal l.field.typ) := by
  cases t
  case struct_ gs =>
    rw [leavesT.eq_def]
    exact leavesList_zero (visFields gs [] 0) (zeroVal (.struct_ gs))
      (visFields_zero_root gs)
  all_goals intro l hl
  all_goals rw [leavesT.eq_def] at hl
  all_goals exact absurd hl (List.not_mem_nil l)
termination_by (tySize t, 0, 0)
decreasing_by
  simp_wf
  subst t
  exact Prod.Lex.left _ _
    (vfsBound_lt _ _ (visFields_typ_size_struct _) (tySize_pos _))

theorem leavesList_zero (lv : List VField) (root : GoValue)
    (hctx : ∀ vf ∈ lv, getPath root vf.index = some (zeroVal vf.field.typ)) :
    ∀ l ∈ leavesList lv, getPath root l.path = some (zeroVal l.field.typ) := by
  match lv with
  | [] =>
      intro l hl
      rw [leavesList.eq_def] at hl
      exact absurd hl (List.not_mem_nil l)
  | vf :: rest =>
      intro l hl
      rw [leavesList.eq_def] at hl
      dsimp only at hl
      rcases List.mem_append.mp hl with hl | hl
      · exact leavesField_zero vf root (hctx vf (List.mem_cons_self vf rest)) l hl
      · exact leavesList_zero rest root
          (fun vf2 hvf2 => hctx vf2 (List.mem_cons_of_mem vf hvf2)) l hl
termination_by (vfsBound lv, 1, lv.length)
decreasing_by
  · have hle : tySize vf.field.typ ≤ vfsBound (vf :: rest) := by
      simp [vfsBound]
    rcases Nat.lt_or_ge (tySize vf.field.typ) (vfsBound (vf :: rest)) with hlt | hge
    · exact Prod.Lex.left _ _ hlt
    · have heq : tySize vf.field.typ = vfsBound (vf :: rest) :=
        Nat.le_antisymm hle hge
      rw [heq]
      exact Prod.Lex.right _ (Prod.Lex.left _ _ (by omega))
  · have hle : vfsBound rest ≤ vfsBound (vf :: rest) := by
      simp [vfsBound]
    rcases Nat.lt_or_ge (vfsBound rest) (vfsBound (vf :: rest)) with hlt | hge
    · exact Prod.Lex.left _ _ hlt
    · have heq : vfsBound rest = vfsBound (vf :: rest) := Nat.le_antisymm hle hge
      rw [heq]
      exact Prod.Lex.right _ (Prod.Lex.right _ (by simp))

theorem leavesField_zero (vf : VField) (root : GoValue)
    (hctx : getPath root vf.index = some (zeroVal vf.field.typ)) :
    ∀ l ∈ leavesField vf, getPath root l.path = some (zeroVal l.field.typ) := by
  intro l hl
  rw [leavesField.eq_def] at hl
  by_cases hskip : (vf.field.anonymous || !vf.field.exported) = true
  · rw [if_pos hskip] at hl
    exact absurd hl (List.not_mem_nil l)
  · rw [if_neg hskip] at hl
    by_cases htag : vf.field.tag = ""
    · rw [if_pos htag] at hl
      by_cases hkd : kindOf (derefOnce vf.field.typ) = .structK
      · rw [if_pos hkd] at hl
        rcases List.mem_map.mp hl with ⟨l2, hl2, hleq⟩
        have hrec := leavesT_zero vf.field.typ l2 hl2
        rw [← hleq]
        dsimp only
        rw [getPath_append vf.index l2.path root, hctx]
        dsimp only [Option.bind]
        exact hrec
      · rw [if_neg hkd] at hl
        exact absurd hl (List.not_mem_nil l)
    · rw [if_neg htag] at hl
      cases hpt : parseTag vf.field.tag with
      | none => rw [hpt] at hl; exact absurd hl (List.not_mem_nil l)
      | some trip =>
          rcases trip with ⟨nm, d, hp2⟩
          rw [hpt] at hl
          rcases List.mem_singleton.mp hl with rfl
          exact hctx
termination_by (tySize vf.field.typ, 0, 1)
decreasing_by
  exact Prod.Lex.right _ (Prod.Lex.right _ (by omega))
end

/-! Pairwise structural disjointness of leaf paths. -/

theorem visFields_index_shape :
    ∀ (n : Nat) (gs : List GoField) (pfx : List Nat) (i : Nat),
      fieldsSize gs ≤ n →
      ∀ vf ∈ visFields gs pfx i, ∃ j r, vf.index = pfx ++ j :: r ∧ i ≤ j := by
  intro n
  induction n with
  | zero =>
      intro gs pfx i hle vf hmem
      cases gs with
      | nil => simp [visFields] at hmem
      | cons f rest =>
          simp only [fieldsSize] at hle
          have h1 := fieldSize_typ f
          have h2 := tySize_pos f.typ
          omega
  | succ n ih =>
      intro gs pfx i hle vf hmem
      cases gs with
      | nil => simp [visFields] at hmem
      | cons f rest =>
          simp only [visFields, List.mem_cons, List.mem_append] at hmem
          rcases hmem with h | h | h
          · subst h
            exact ⟨i, [], rfl, Nat.le_refl i⟩
          · rcases mem_visAnon_cases f (pfx ++ [i]) vf h with ⟨gs2, hty, hanon, hmem2⟩
            have hsz : tySize f.typ = 1 + fieldsSize gs2 := by rw [hty]; rfl
            have hf := fieldSize_typ f
            rcases ih gs2 (pfx ++ [i]) 0 (by simp only [fieldsSize] at hle; omega)
              vf hmem2 with ⟨j, r, hidx, hj⟩
            refine ⟨i, j :: r, ?_, Nat.le_refl i⟩
            rw [hidx, List.append_assoc]
            rfl
          · rcases ih rest pfx (i + 1) (by simp only [fieldsSize] at hle; omega)
              vf h with ⟨j, r, hidx, hj⟩
            exact ⟨j, r, hidx, by omega⟩

/-- Disjointness obligation between two visible fields: their index paths
are structurally disjoint whenever neither is an embedded field. -/
def VFDisj (a b : VField) : Prop :=
  a.field.anonymous = false → b.field.anonymous = false →
    PathDisj a.index b.index

theorem visAnon_eq (f : GoField) (pfx : List Nat) :
    visAnon f pfx = if f.anonymous then
      (match f.typ with
        | .struct_ gs => visFields gs pfx 0
        | _ => []) else [] := by
  cases f with
  | mk n a e t g =>
      cases a <;> cases t <;>
        simp [visAnon, GoField.anonymous, GoField.typ]

theorem visFields_pairwise_vfdisj :
    ∀ (n : Nat) (gs : List GoField) (pfx : List Nat) (i : Nat),
      fieldsSize gs ≤ n → (visFields gs pfx i).Pairwise VFDisj := by
  intro n
  induction n with
  | zero =>
      intro gs pfx i hle
      cases gs with
      | nil => simp [visFields]
      | cons f rest =>
          simp only [fieldsSize] at hle
          have h1 := fieldSize_typ f
          have h2 := tySize_pos f.typ
          omega
  | succ n ih =>
      intro gs pfx i hle
      cases gs with
      | nil => simp [visFields]
      | cons f rest =>
          rw [visFields]
          refine List.Pairwise.cons ?_ ?_
          · intro b hb
            rcases List.mem_append.mp hb with hb | hb
            · rcases mem_visAnon_cases f (pfx ++ [i]) b hb with
                ⟨gs2, hty, hanon, hmem2⟩
              intro ha hb2
              dsimp only [VField.field] at ha
              rw [hanon] at ha
              exact Bool.noConfusion ha
            · rcases visFields_index_shape (fieldsSize rest) rest pfx (i + 1)
                (Nat.le_refl _) b hb with ⟨j, r, hidx, hj⟩
              intro ha hb2
              dsimp only [VField.index]
              rw [hidx]
              exact pathDisj_prepend pfx _ _ (pathDisj_cons_ne i j [] r (by omega))
          · rw [List.pairwise_append]
            refine ⟨?_, ?_, ?_⟩
            · rw [visAnon_eq]
              by_cases hf : f.anonymous = true
              · rw [if_pos hf]
                cases hty : f.typ
                all_goals try exact List.Pairwise.nil
                rename_i gs2
                dsimp only
                refine ih gs2 (pfx ++ [i]) 0 ?_
                have hsz : tySize f.typ = 1 + fieldsSize gs2 := by rw [hty]; rfl
                have hfs := fieldSize_typ f
                simp only [fieldsSize] at hle
                omega
              · rw [if_neg hf]
                exact List.Pairwise.nil
            · exact ih rest pfx (i + 1) (by simp only [fieldsSize] at hle; omega)
            · intro a ha b hb
              rcases mem_visAnon_cases f (pfx ++ [i]) a ha with
                ⟨gs2, hty, hanon, hmem2⟩
              rcases visFields_index_shape (fieldsSize gs2) gs2 (pfx ++ [i]) 0
                (Nat.le_refl _) a hmem2 with ⟨j, r, hidxa, hja⟩
              rcases visFields_index_shape (fieldsSize rest) rest pfx (i + 1)
                (Nat.le_refl _) b hb with ⟨j2, r2, hidxb, hjb⟩
              intro ha2 hb2
              rw [hidxa, hidxb, List.append_assoc]
              exact pathDisj_prepend pfx _ _ (pathDisj_cons_ne i j2 _ r2 (by omega))

theorem leavesField_nonanon (vf : VField) :
    ∀ l ∈ leavesField vf, vf.field.anonymous = false := by
  intro l hl
  rw [leavesField.eq_def] at hl
  by_cases hskip : (vf.field.anonymous || !vf.field.exported) = true
  · rw [if_pos hskip] at hl
    exact absurd hl (List.not_mem_nil l)
  · cases ha : vf.field.anonymous with
    | false => rfl
    | true => exact absurd (by rw [ha]; rfl) hskip

theorem leavesField_path_shape (vf : VField) :
    ∀ l ∈ leavesField vf, ∃ r, l.path = vf.index ++ r := by
  intro l hl
  rw [leavesField.eq_def] at hl
  by_cases hskip : (vf.field.anonymous || !vf.field.exported) = true
  · rw [if_pos hskip] at hl
    exact absurd hl (List.not_mem_nil l)
  · rw [if_neg hskip] at hl
    by_cases htag : vf.field.tag = ""
    · rw [if_pos htag] at hl
      by_cases hkd : kindOf (derefOnce vf.field.typ) = .structK
      · rw [if_pos hkd] at hl
        rcases List.mem_map.mp hl with ⟨l2, hl2, hleq⟩
        exact ⟨l2.path, by rw [← hleq]⟩
      · rw [if_neg hkd] at hl
        exact absurd hl (List.not_mem_nil l)
    · rw [if_neg htag] at hl
      cases hpt : parseTag vf.field.tag with
      | none => rw [hpt] at hl; exact absurd hl (List.not_mem_nil l)
      | some trip =>
          rcases trip with ⟨nm, d, hp2⟩
          rw [hpt] at hl
          rcases List.mem_singleton.mp hl with rfl
          exact ⟨[], by rw [List.append_nil]⟩

theorem mem_leavesList : ∀ (lv : List VField) (l : Leaf),
    l ∈ leavesList lv → ∃ vf ∈ lv, l ∈ leavesField vf := by
  intro lv
  induction lv with
  | nil =>
      intro l hl
      rw [leavesList.eq_def] at hl
      exact absurd hl (List.not_mem_nil l)
  | cons vf rest ih =>
      intro l hl
      rw [leavesList.eq_def] at hl
      dsimp only at hl
      rcases List.mem_append.mp hl with hl | hl
      · exact ⟨vf, List.mem_cons_self vf rest, hl⟩
      · rcases ih l hl with ⟨vf2, hvf2, hl2⟩
        exact ⟨vf2, List.mem_cons_of_mem vf hvf2, hl2⟩

mutual
theorem leavesT_pairwise (t : GoType) :
    (leavesT t).Pairwise (fun a b => PathDisj a.path b.path) := by
  cases t
  case struct_ gs =>
    rw [leavesT.eq_def]
    exact leavesList_pairwise (visFields gs [] 0)
      (visFields_pairwise_vfdisj (fieldsSize gs) gs [] 0 (Nat.le_refl _))
  all_goals rw [leavesT.eq_def]
  all_goals exact List.Pairwise.nil
termination_by (tySize t, 0, 0)
decreasing_by
  simp_wf
  subst t
  exact Prod.Lex.left _ _
    (vfsBound_lt _ _ (visFields_typ_size_struct _) (tySize_pos _))

theorem leavesList_pairwise (lv : List VField) (hp : lv.Pairwise VFDisj) :
    (leavesList lv).Pairwise (fun a b => PathDisj a.path b.path) := by
  match lv with
  | [] =>
      rw [leavesList.eq_def]
      exact List.Pairwise.nil
  | vf :: rest =>
      rw [leavesList.eq_def]
      dsimp only
      rw [List.pairwise_append]
      rcases List.pairwise_cons.mp hp with ⟨hhead, htail⟩
      refine ⟨leavesField_pairwise vf, leavesList_pairwise rest htail, ?_⟩
      intro a ha b hb
      rcases mem_leavesList rest b hb with ⟨vf2, hvf2, hb2⟩
      have hdisj := hhead vf2 hvf2 (leavesField_nonanon vf a ha)
        (leavesField_nonanon vf2 b hb2)
      rcases leavesField_path_shape vf a ha with ⟨r1, hr1⟩
      rcases leavesField_path_shape vf2 b hb2 with ⟨r2, hr2⟩
      rw [hr1, hr2]
      exact pathDisj_extend _ _ _ _ hdisj
termination_by (vfsBound lv, 1, lv.length)
decreasing_by
  · have hle : tySize vf.field.typ ≤ vfsBound (vf :: rest) := by
      simp [vfsBound]
    rcases Nat.lt_or_ge (tySize vf.field.typ) (vfsBound (vf :: rest)) with hlt | hge
    · exact Prod.Lex.left _ _ hlt
    · have heq : tySize vf.field.typ = vfsBound (vf :: rest) :=
        Nat.le_antisymm hle hge
      rw [heq]
      exact Prod.Lex.right _ (Prod.Lex.left _ _ (by omega))
  · have hle : vfsBound rest ≤ vfsBound (vf :: rest) := by
      simp [vfsBound]
    rcases Nat.lt_or_ge (vfsBound rest) (vfsBound (vf :: rest)) with hlt | hge
    · exact Prod.Lex.left _ _ hlt
    · have heq : vfsBound rest = vfsBound (vf :: rest) := Nat.le_antisymm hle hge
      rw [heq]
      exact Prod.Lex.right _ (Prod.Lex.right _ (by simp))

theorem leavesField_pairwise (vf : VField) :
    (leavesField vf).Pairwise (fun a b => PathDisj a.path b.path) := by
  rw [leavesField.eq_def]
  by_cases hskip : (vf.field.anonymous || !vf.field.exported) = true
  · rw [if_pos hskip]
    exact List.Pairwise.nil
  · rw [if_neg hskip]
    by_cases htag : vf.field.tag = ""
    · rw [if_pos htag]
      by_cases hkd : kindOf (derefOnce vf.field.typ) = .structK
      · rw [if_pos hkd]
        refine List.Pairwise.map _ ?_ (leavesT_pairwise vf.field.typ)
        intro a b hab
        dsimp only
        exact pathDisj_prepend vf.index _ _ hab
      · rw [if_neg hkd]
        exact List.Pairwise.nil
    · rw [if_neg htag]
      cases hpt : parseTag vf.field.tag with
      | none => exact List.Pairwise.nil
      | some trip =>
          rcases trip with ⟨nm, d, hp2⟩
          exact List.Pairwise.cons
            (fun b hb => absurd hb (List.not_mem_nil b)) List.Pairwise.nil
termination_by (tySize vf.field.typ, 0, 1)
decreasing_by
  exact Prod.Lex.right _ (Prod.Lex.right _ (by omega))
end

/-! Reconciliation of the obtained flag value into the field type. -/

theorem fvShape_set (fv : FlagVal) (s : String) (fv2 : FlagVal)
    (h : fv.set s = .ok fv2) : fvShape fv2 = fvShape fv := by
  cases fv with
  | boolF b =>
      rw [FlagVal.set] at h
      cases hp : parseGoBool s with
      | none => rw [hp] at h; exact Except.noConfusion h
      | some x => rw [hp] at h; injection h with h; rw [← h]; rfl
  | intF i =>
      rw [FlagVal.set] at h
      cases hp : parseGoInt s with
      | none => rw [hp] at h; exact Except.noConfusion h
      | some x => rw [hp] at h; injection h with h; rw [← h]; rfl
  | uintF n =>
      rw [FlagVal.set] at h
      cases hp : parseGoUint s with
      | none => rw [hp] at h; exact Except.noConfusion h
      | some x => rw [hp] at h; injection h with h; rw [← h]; rfl
  | int64F i =>
      rw [FlagVal.set] at h
      cases hp : parseGoInt s with
      | none => rw [hp] at h; exact Except.noConfusion h
      | some x => rw [hp] at h; injection h with h; rw [← h]; rfl
  | uint64F n =>
      rw [FlagVal.set] at h
      cases hp : parseGoUint s with
      | none => rw [hp] at h; exact Except.noConfusion h
      | some x => rw [hp] at h; injection h with h; rw [← h]; rfl
  | durationF d =>
      rw [FlagVal.set] at h
      cases hp : parseGoDuration s with
      | none => rw [hp] at h; exact Except.noConfusion h
      | some x => rw [hp] at h; injection h with h; rw [← h]; rfl
  | float64F q =>
      rw [FlagVal.set] at h
      cases hp : parseGoFloat s with
      | none => rw [hp] at h; exact Except.noConfusion h
      | some x => rw [hp] at h; injection h with h; rw [← h]; rfl
  | stringF s0 =>
      rw [FlagVal.set] at h
      injection h with h
      rw [← h]
      rfl
  | customF c st =>
      rw [FlagVal.set] at h
      injection h with h
      rw [← h]
      rfl

theorem reconVal_custom1 (c2 : CustomType) (st : String)
    (hb : (c2 == c2) = true) :
    reconVal (.custom c2) (.vCustom c2 st) = .ok (.vCustom c2 st) := by
  have h : tyBeq (.custom c2) (valueType (.vCustom c2 st)) = true := hb
  rw [reconVal, if_pos h]
  · intro e he
    exact GoType.noConfusion he
  · intro e w hw
    exact GoValue.noConfusion hw
  · intro e hw
    exact GoValue.noConfusion hw

theorem reconVal_custom2 (c2 : CustomType) (st : String)
    (hb : (c2 == c2) = true) :
    reconVal (.pointer (.custom c2)) (.vCustom c2 st) =
      .ok (.vPointer (.custom c2) (some (.vCustom c2 st))) := by
  have hno : ¬(tyBeq (.pointer (.custom c2))
      (valueType (.vCustom c2 st)) = true) := fun hx => Bool.noConfusion hx
  have h2 : tyBeq (valueType (GoValue.vCustom c2 st)) (.custom c2) = true := hb
  rw [reconVal, if_neg hno]
  rotate_left
  · intro e w hw
    exact GoValue.noConfusion hw
  · intro e hw
    exact GoValue.noConfusion hw
  dsimp only
  rw [if_pos h2]
  rfl

theorem reconVal_custom3 (c2 : CustomType) (st : String)
    (hb : (c2 == c2) = true) :
    reconVal (.custom c2) (.vPointer (.custom c2) (some (.vCustom c2 st))) =
      .ok (.vCustom c2 st) := by
  have hno : ¬(tyBeq (.custom c2)
      (valueType (.vPointer (.custom c2) (some (.vCustom c2 st)))) = true) :=
    fun hx => Bool.noConfusion hx
  have h2 : tyBeq (valueType (GoValue.vCustom c2 st)) (.custom c2) = true := hb
  rw [reconVal, if_neg hno]
  rotate_left
  · intro e he
    exact GoType.noConfusion he
  dsimp only
  rw [if_pos h2]
  rfl

theorem reconVal_custom4 (c2 : CustomType) (st : String)
    (hb : (c2 == c2) = true) :
    reconVal (.pointer (.custom c2))
        (.vPointer (.custom c2) (some (.vCustom c2 st))) =
      .ok (.vPointer (.custom c2) (some (.vCustom c2 st))) := by
  have h : tyBeq (.pointer (.custom c2))
      (valueType (.vPointer (.custom c2) (some (.vCustom c2 st)))) = true := hb
  rw [reconVal, if_pos h]

theorem reconVal_ok_core (e : GoType) (fv0 fv : FlagVal)
    (hreg : regFlagVal e = some fv0) (hsh : fvShape fv = fvShape fv0) :
    (∃ u, reconVal e (flagObtained fv) = .ok u) ∧
      (∃ u, reconVal (.pointer e) (flagObtained fv) = .ok u) := by
  cases e
  case struct_ gs => exact Option.noConfusion hreg
  case pointer e2 => exact Option.noConfusion hreg
  case custom c =>
      injection hreg with h0
      subst h0
      cases fv <;> simp only [fvShape] at hsh
      case customF c2 st =>
        injection hsh with hc
        subst hc
        have hb : (c2 == c2) = true := by simp
        cases hget : c2.hasGetter with
        | true =>
            have hobt : flagObtained (.customF c2 st) = .vCustom c2 st := by
              rw [flagObtained, FlagVal.get, hget]
              rfl
            rw [hobt]
            exact ⟨⟨_, reconVal_custom1 c2 st hb⟩, ⟨_, reconVal_custom2 c2 st hb⟩⟩
        | false =>
            have hobt : flagObtained (.customF c2 st) =
                .vPointer (.custom c2) (some (.vCustom c2 st)) := by
              rw [flagObtained, FlagVal.get, hget]
              rfl
            rw [hobt]
            exact ⟨⟨_, reconVal_custom3 c2 st hb⟩, ⟨_, reconVal_custom4 c2 st hb⟩⟩
      all_goals exact GoType.noConfusion hsh
  all_goals (
    injection hreg with h0
    subst h0
    cases fv <;> simp only [fvShape] at hsh <;>
      first
        | exact ⟨⟨_, rfl⟩, ⟨_, rfl⟩⟩
        | exact GoType.noConfusion hsh)

theorem reconVal_ok (τ : GoType) (fv0 fv : FlagVal)
    (hreg : regFlagVal (derefOnce τ) = some fv0)
    (hsh : fvShape fv = fvShape fv0) :
    ∃ u, reconVal τ (flagObtained fv) = .ok u := by
  cases τ
  case pointer e => exact (reconVal_ok_core e fv0 fv hreg hsh).2
  all_goals exact (reconVal_ok_core _ fv0 fv hreg hsh).1

theorem flagOf_value_shape (l : Leaf) (fv0 : FlagVal)
    (hreg : regFlagVal (derefOnce l.field.typ) = some fv0)
    (hset : ¬l.deflt = "" → ∃ fv, fv0.set l.deflt = .ok fv) :
    fvShape (flagOf l).value = fvShape fv0 := by
  rw [flagOf]
  rw [hreg]
  dsimp only
  by_cases hd : l.deflt = ""
  · rw [if_pos hd]
  · rcases hset hd with ⟨fv, hfv⟩
    rw [if_neg hd, hfv]
    exact fvShape_set fv0 l.deflt fv hfv

theorem wrQuery2 (v : GoValue) (p : List Nat) (w : GoValue) (c2 : Bool)
    (tgt : GoType) (viaPtr : Bool) :
    (match (if c2 then Except.ok w else
        match convertVal w tgt with
        | some u => Except.ok u
        | none => Except.error "value not convertible") with
      | .error e => (Except.error e : Except String GoValue)
      | .ok u =>
          match setPath v p
              (if viaPtr then GoValue.vPointer tgt (some u) else u) with
          | some v2 => Except.ok v2
          | none => Except.error "invalid field index") =
    match (match (if c2 then Except.ok w else
        match convertVal w tgt with
        | some u => Except.ok u
        | none => Except.error "value not convertible") with
      | .error e => (Except.error e : Except String GoValue)
      | .ok u =>
          Except.ok (if viaPtr then GoValue.vPointer tgt (some u) else u)) with
      | .ok w2 =>
          (match setPath v p w2 with
            | some v2 => Except.ok v2
            | none => Except.error "invalid field index")
      | .error e => Except.error e := by
  cases c2 with
  | true => rfl
  | false =>
      cases hc : convertVal w tgt with
      | none => rfl
      | some u => rfl

theorem wrQuery (v : GoValue) (p : List Nat) (flv : GoValue) (c : Bool)
    (tgt : GoType) (viaPtr : Bool) :
    (if c then
        match setPath v p flv with
        | some v2 => Except.ok v2
        | none => Except.error "invalid field index"
      else
        match
          (match flv with
            | GoValue.vPointer _ (some w) => Except.ok w
            | GoValue.vPointer _ none =>
                Except.error "nil pointer dereference"
            | w => Except.ok w) with
        | .error e => (Except.error e : Except String GoValue)
        | .ok w =>
            match
              (if tyBeq (valueType w) tgt then Except.ok w
                else
                  match convertVal w tgt with
                  | some u => Except.ok u
                  | none => Except.error "value not convertible") with
            | .error e => Except.error e
            | .ok u =>
                match setPath v p
                    (if viaPtr then GoValue.vPointer tgt (some u) else u) with
                | some v2 => Except.ok v2
                | none => Except.error "invalid field index") =
      match
        (if c then Except.ok flv
          else
            match
              (match flv with
                | GoValue.vPointer _ (some w) => Except.ok w
                | GoValue.vPointer _ none =>
                    Except.error "nil pointer dereference"
                | w => Except.ok w) with
            | .error e => (Except.error e : Except String GoValue)
            | .ok w =>
                match
                  (if tyBeq (valueType w) tgt then Except.ok w
                    else
                      match convertVal w tgt with
                      | some u => Except.ok u
                      | none => Except.error "value not convertible") with
                | .error e => Except.error e
                | .ok u =>
                    Except.ok
                      (if viaPtr then GoValue.vPointer tgt (some u) else u)) with
      | .ok w2 =>
          (match setPath v p w2 with
            | some v2 => Except.ok v2
            | none => Except.error "invalid field index")
      | .error e => Except.error e := by
  cases c with
  | true => rfl
  | false =>
      cases flv
      case vPointer e po =>
          cases po with
          | none => rfl
          | some w => exact wrQuery2 v p w (tyBeq (valueType w) tgt) tgt viaPtr
      all_goals exact wrQuery2 v p _ _ tgt viaPtr

theorem writeRecon_reconVal (v : GoValue) (p : List Nat)
    (fiv flv : GoValue) :
    writeRecon v p fiv flv =
      match reconVal (valueType fiv) flv with
      | .ok w =>
          (match setPath v p w with
            | some v2 => Except.ok v2
            | none => Except.error "invalid field index")
      | .error e => Except.error e := by
  cases fiv <;> exact wrQuery v p flv _ _ _

/-! Lookup of leaves in the index and the registry. -/

theorem lookupIdx_cons_self (nm : String) (pth : List Nat)
    (rest : List (String × List Nat)) :
    lookupIdx ((nm, pth) :: rest) nm = some pth := by
  simp [lookupIdx]

theorem lookupIdx_cons_ne (x : String × List Nat) (n : String)
    (rest : List (String × List Nat)) (h : ¬x.1 = n) :
    lookupIdx (x :: rest) n = lookupIdx rest n := by
  rw [lookupIdx, lookupIdx, List.find?_cons_of_neg _ (by simp [h])]

theorem lookupIdx_map_self (ls : List Leaf) :
    ∀ l ∈ ls, (ls.map Leaf.name).Nodup →
      lookupIdx (ls.map (fun l2 => (l2.name, l2.path))) l.name = some l.path := by
  induction ls with
  | nil => intro l hl _; exact absurd hl (List.not_mem_nil l)
  | cons l0 rest ih =>
      intro l hl hnd
      simp only [List.map_cons] at hnd ⊢
      rcases List.nodup_cons.mp hnd with ⟨hnotin, hnd2⟩
      rcases List.mem_cons.mp hl with rfl | hl2
      · exact lookupIdx_cons_self l.name l.path _
      · have hne : ¬(l0.name, l0.path).1 = l.name := by
          intro he
          have he2 : l0.name = l.name := he
          refine hnotin ?_
          rw [he2]
          exact List.mem_map_of_mem Leaf.name hl2
        rw [lookupIdx_cons_ne (l0.name, l0.path) l.name _ hne]
        exact ih l hl2 hnd2

theorem fsLookup_map_flagOf (ls : List Leaf) (p : Bool) (a : List String) :
    ∀ l ∈ ls, (ls.map Leaf.name).Nodup →
      fsLookup (FlagSet.mk (ls.map flagOf) p a) l.name = some (flagOf l) := by
  induction ls with
  | nil => intro l hl _; exact absurd hl (List.not_mem_nil l)
  | cons l0 rest ih =>
      intro l hl hnd
      simp only [List.map_cons] at hnd ⊢
      rcases List.nodup_cons.mp hnd with ⟨hnotin, hnd2⟩
      rcases List.mem_cons.mp hl with rfl | hl2
      · rw [fsLookup]
        dsimp only
        have hstep : List.find? (fun fl => fl.name == l.name)
            (flagOf l :: List.map flagOf rest) = some (flagOf l) :=
          List.find?_cons_of_pos _ (by simp [flagOf_name])
        rw [hstep]
      · have hne : ¬((fun fl => fl.name == l.name) (flagOf l0)) = true := by
          dsimp only
          rw [flagOf_name]
          simp only [beq_iff_eq]
          intro he
          refine hnotin ?_
          rw [he]
          exact List.mem_map_of_mem Leaf.name hl2
        have hstep : List.find? (fun fl => fl.name == l.name)
            (flagOf l0 :: List.map flagOf rest) =
            List.find? (fun fl => fl.name == l.name) (List.map flagOf rest) :=
          List.find?_cons_of_neg _ hne
        rw [fsLookup]
        dsimp only
        rw [hstep]
        have hrest := ih l hl2 hnd2
        rw [fsLookup] at hrest
        exact hrest

/-! The synchronizer fold over the per-leaf flags of a zero record. -/

theorem syncAll_leaves (explicit : List String)
    (idx : List (String × List Nat)) :
    ∀ (ls2 : List Leaf) (fls : List Flag) (v : GoValue),
      List.Forall₂ (fun (l : Leaf) (fl : Flag) => fl.name = l.name ∧
        ∃ u, reconVal l.field.typ (flagObtained fl.value) = .ok u) ls2 fls →
      (∀ l ∈ ls2, lookupIdx idx l.name = some l.path) →
      List.Pairwise (fun a b => PathDisj a.path b.path) ls2 →
      (∀ l ∈ ls2, getPath v l.path = some (zeroVal l.field.typ)) →
      ∃ v2, syncAll explicit idx v fls = .ok v2 ∧
        List.Forall₂ (fun (l : Leaf) (fl : Flag) =>
          ∃ u, reconVal l.field.typ (flagObtained fl.value) = .ok u ∧
            getPath v2 l.path = some u) ls2 fls ∧
        ∀ q, (∀ l ∈ ls2, PathDisj l.path q) → getPath v2 q = getPath v q := by
  intro ls2
  induction ls2 with
  | nil =>
      intro fls v hF2 hlk hpw hz
      cases hF2
      exact ⟨v, rfl, List.Forall₂.nil, fun q _ => rfl⟩
  | cons l rest ih =>
      intro fls v hF2 hlk hpw hz
      cases hF2
      rename_i fl fls2 hhead htail
      rcases hhead with ⟨hname, u, hrec⟩
      have hlk1 : lookupIdx idx fl.name = some l.path := by
        rw [hname]
        exact hlk l (List.mem_cons_self l rest)
      have hz1 : getPath v l.path = some (zeroVal l.field.typ) :=
        hz l (List.mem_cons_self l rest)
      have hstep : syncStep explicit idx v fl = writeRecon v l.path
          (zeroVal l.field.typ) (flagObtained fl.value) := by
        rw [syncStep_bound_eq explicit idx v fl l.path
          (zeroVal l.field.typ) hlk1 hz1]
        rw [isZero_zeroVal (l.field.typ)]
        rfl
      have hwr := writeRecon_reconVal v l.path (zeroVal l.field.typ)
        (flagObtained fl.value)
      rw [valueType_zeroVal] at hwr
      rw [hrec] at hwr
      dsimp only at hwr
      rcases setPath_of_getPath l.path v (zeroVal l.field.typ) u hz1 with ⟨v2, hsp⟩
      rw [hsp] at hwr
      dsimp only at hwr
      rw [syncAll, hstep, hwr]
      dsimp only
      have hz2 : ∀ l2 ∈ rest, getPath v2 l2.path = some (zeroVal l2.field.typ) := by
        intro l2 hl2
        have hdisj := (List.pairwise_cons.mp hpw).1 l2 hl2
        rw [getPath_setPath_frame l.path v u v2 l2.path hsp hdisj]
        exact hz l2 (List.mem_cons_of_mem l hl2)
      rcases ih fls2 v2 htail
        (fun l2 hl2 => hlk l2 (List.mem_cons_of_mem l hl2))
        (List.pairwise_cons.mp hpw).2 hz2 with ⟨v3, hrun, hF2out, hframe⟩
      refine ⟨v3, hrun, ?_, ?_⟩
      · refine List.Forall₂.cons ⟨u, hrec, ?_⟩ hF2out
        have hfr : getPath v3 l.path = getPath v2 l.path := by
          refine hframe l.path ?_
          intro l2 hl2
          exact pathDisj_symm _ _ ((List.pairwise_cons.mp hpw).1 l2 hl2)
        rw [hfr]
        exact getPath_setPath_self l.path v u v2 hsp
      · intro q hq
        have h1 : getPath v3 q = getPath v2 q := by
          refine hframe q ?_
          intro l2 hl2
          exact hq l2 (List.mem_cons_of_mem l hl2)
        rw [h1]
        exact getPath_setPath_frame l.path v u v2 q hsp
          (hq l (List.mem_cons_self l rest))

theorem addFlags_ok_struct (fs : FlagSet) (t : GoType) (fs2 : FlagSet)
    (h : addFlags fs t = .ok fs2) : ∃ gs, t = .struct_ gs := by
  cases t
  case struct_ gs => exact ⟨gs, rfl⟩
  all_goals rw [addFlags_nonstruct fs _ (by intro gs hgs; cases hgs)] at h
  all_goals exact Except.noConfusion h

/-- C2 corrected: starting from the all-zero record, after a successful
registration pass, one simulated explicit command-line assignment of value
a to flag f, and synchronization, the record holds at every annotated leaf
the reconciliation of the current value of its flag into the field type:
the leaf annotated f holds the assigned value a decoded by the flag
storage and reconciled per the field type, every other leaf holds the
reconciliation of its registered flag value including the applied
annotation default, and every structural path disjoint from all leaf paths
keeps its zero value.  The leaves need not remain zero, so the original
claim that every other field stays at its zero value fails whenever an
annotation declares a default that decodes to a non-zero value. -/
theorem roundtrip_assigned_value_and_defaults (t : GoType) (f a : String)
    (fs1 fs2 : FlagSet)
    (h1 : addFlags emptyFS t = .ok fs1)
    (h2 : simulateParse fs1 f a = .ok fs2) :
    ∃ v2, setFromFlags (zeroVal t) fs2 = .ok v2 ∧
      (∀ l ∈ leavesT t, l.name = f →
        ∃ fl0 fv u, fsLookup fs1 f = some fl0 ∧ fl0.value.set a = .ok fv ∧
          reconVal l.field.typ (flagObtained fv) = .ok u ∧
          getPath v2 l.path = some u) ∧
      (∀ l ∈ leavesT t, ¬l.name = f →
        ∃ u, reconVal l.field.typ (flagObtained (flagOf l).value) = .ok u ∧
          getPath v2 l.path = some u) ∧
      (∀ q, (∀ l ∈ leavesT t, PathDisj l.path q) →
        getPath v2 q = getPath (zeroVal t) q) := by
  rcases addFlags_ok_struct emptyFS t fs1 h1 with ⟨gs, rfl⟩
  rcases addFlags_char emptyFS (.struct_ gs) fs1 h1 with
    ⟨⟨hfl, hpar, hact, hnd, hfr⟩, htags⟩
  have hfl2 : fs1.flags = (leavesT (.struct_ gs)).map flagOf := by
    rw [hfl]
    rfl
  rw [simulateParse] at h2
  cases hset : fsSet fs1 f a with
  | error e => rw [hset] at h2; exact Except.noConfusion h2
  | ok fs2b =>
    rw [hset] at h2
    dsimp only at h2
    injection h2 with h2
    subst h2
    rw [fsSet] at hset
    cases hlk0 : fsLookup fs1 f with
    | none => rw [hlk0] at hset; exact Except.noConfusion hset
    | some fl0 =>
      rw [hlk0] at hset
      dsimp only at hset
      cases hsv : fl0.value.set a with
      | error e => rw [hsv] at hset; exact Except.noConfusion hset
      | ok fvNew =>
        rw [hsv] at hset
        dsimp only at hset
        injection hset with hset
        subst hset
        have hflags2 : (mapFlag fs1 f
            (fun f0 => Flag.mk f0.name f0.usage fvNew f0.defValue)).flags =
            (leavesT (.struct_ gs)).map (fun l =>
              if (flagOf l).name == f then
                Flag.mk (flagOf l).name (flagOf l).usage fvNew (flagOf l).defValue
              else flagOf l) := by
          rw [mapFlag]
          dsimp only
          rw [hfl2, List.map_map]
          rfl
        have hgfi := gfi_suff [] gs [] htags ⟨hnd, fun l hl => rfl⟩
        have hentries : ([] : List (String × List Nat)) ++
            leafEntries [] (leavesT (.struct_ gs)) =
            (leavesT (.struct_ gs)).map (fun l => (l.name, l.path)) := by
          rw [List.nil_append, leafEntries]
          apply List.map_congr_left
          intro l _
          rw [List.nil_append]
        have hsf : setFromFlags (zeroVal (.struct_ gs))
            (FlagSet.mk (mapFlag fs1 f
              (fun f0 => Flag.mk f0.name f0.usage fvNew f0.defValue)).flags
              true (fs1.actual ++ [f])) =
            syncAll (fs1.actual ++ [f])
              ((leavesT (.struct_ gs)).map (fun l => (l.name, l.path)))
              (zeroVal (.struct_ gs))
              ((mapFlag fs1 f
                (fun f0 => Flag.mk f0.name f0.usage fvNew f0.defValue)).flags) := by
          rw [setFromFlags]
          rw [show valueType (zeroVal (.struct_ gs)) = .struct_ gs from
            valueType_zeroVal _]
          dsimp only
          rw [hgfi, hentries]
          rfl
        -- pointwise description of the parsed registry
        have hF2 : List.Forall₂ (fun (l : Leaf) (fl : Flag) => fl.name = l.name ∧
            ∃ u, reconVal l.field.typ (flagObtained fl.value) = .ok u)
            (leavesT (.struct_ gs))
            ((mapFlag fs1 f
              (fun f0 => Flag.mk f0.name f0.usage fvNew f0.defValue)).flags) := by
          rw [hflags2, List.forall₂_map_right_iff, List.forall₂_same]
          intro l hl
          rcases hfr l hl with ⟨hlkE, fv0, hreg, hdset⟩
          by_cases hlf : l.name = f
          · have hbeq : ((flagOf l).name == f) = true := by
              rw [flagOf_name, hlf]
              simp
            rw [if_pos hbeq]
            refine ⟨by rw [flagOf_name], ?_⟩
            have hlkl : fsLookup fs1 f = some (flagOf l) := by
              have h3 := fsLookup_map_flagOf (leavesT (.struct_ gs))
                fs1.parsed fs1.actual l hl hnd
              rw [fsLookup] at h3 ⊢
              rw [hfl2]
              rw [hlf] at h3
              exact h3
            rw [hlk0] at hlkl
            injection hlkl with hlkl
            rw [hlkl] at hsv
            have hshNew : fvShape fvNew = fvShape fv0 := by
              rw [fvShape_set (flagOf l).value a fvNew hsv]
              exact flagOf_value_shape l fv0 hreg hdset
            exact reconVal_ok l.field.typ fv0 fvNew hreg hshNew
          · have hbeq : ¬(((flagOf l).name == f) = true) := by
              rw [flagOf_name]
              simp [hlf]
            rw [if_neg hbeq]
            refine ⟨flagOf_name l, ?_⟩
            exact reconVal_ok l.field.typ fv0 (flagOf l).value hreg
              (flagOf_value_shape l fv0 hreg hdset)
        rcases syncAll_leaves (fs1.actual ++ [f])
          ((leavesT (.struct_ gs)).map (fun l => (l.name, l.path)))
          (leavesT (.struct_ gs))
          ((mapFlag fs1 f
            (fun f0 => Flag.mk f0.name f0.usage fvNew f0.defValue)).flags)
          (zeroVal (.struct_ gs)) hF2
          (fun l hl => lookupIdx_map_self (leavesT (.struct_ gs)) l hl hnd)
          (leavesT_pairwise (.struct_ gs))
          (leavesT_zero (.struct_ gs))
          with ⟨v2, hrun, hout, hframe⟩
        rw [hflags2, List.forall₂_map_right_iff, List.forall₂_same] at hout
        refine ⟨v2, ?_, ?_, ?_, ?_⟩
        · rw [hsf]
          exact hrun
        · intro l hl hlf
          have hbeq : ((flagOf l).name == f) = true := by
            rw [flagOf_name, hlf]
            simp
          have hpt := hout l hl
          rw [if_pos hbeq] at hpt
          rcases hpt with ⟨u, hrec, hget⟩
          have hlkl : fsLookup fs1 f = some (flagOf l) := by
            have h3 := fsLookup_map_flagOf (leavesT (.struct_ gs))
              fs1.parsed fs1.actual l hl hnd
            rw [fsLookup] at h3 ⊢
            rw [hfl2]
            rw [hlf] at h3
            exact h3
          rw [hlk0] at hlkl
          injection hlkl with hlkl
          rw [hlkl] at hsv
          have hlkgoal : some fl0 = some (flagOf l) := by
            rw [hlkl]
          exact ⟨flagOf l, fvNew, u, hlkgoal, hsv, hrec, hget⟩
        · intro l hl hlf
          have hbeq : ¬(((flagOf l).name == f) = true) := by
            rw [flagOf_name]
            simp [hlf]
          have hpt := hout l hl
          rw [if_neg hbeq] at hpt
          exact hpt
        · exact hframe

/-- Witness for C2 corrected at a concrete record: fields A (int, default
7) and B (int, empty default), the command line assigns 5 to flag b; the
hypotheses of the corrected round-trip theorem are discharged by
evaluation. -/
theorem roundtrip_assigned_value_and_defaults_witness :
    addFlags emptyFS
        (.struct_ [.mk "A" false true .int "a,7,ha",
          .mk "B" false true .int "b,,hb"]) =
      .ok (FlagSet.mk [Flag.mk "a" "ha" (.intF 7) "7",
        Flag.mk "b" "hb" (.intF 0) "0"] false []) ∧
    simulateParse (FlagSet.mk [Flag.mk "a" "ha" (.intF 7) "7",
        Flag.mk "b" "hb" (.intF 0) "0"] false []) "b" "5" =
      .ok (FlagSet.mk [Flag.mk "a" "ha" (.intF 7) "7",
        Flag.mk "b" "hb" (.intF 5) "0"] true ["b"]) ∧
    (∃ v2, setFromFlags
        (zeroVal (.struct_ [.mk "A" false true .int "a,7,ha",
          .mk "B" false true .int "b,,hb"]))
        (FlagSet.mk [Flag.mk "a" "ha" (.intF 7) "7",
          Flag.mk "b" "hb" (.intF 5) "0"] true ["b"]) = .ok v2 ∧
      (∀ l ∈ leavesT (.struct_ [.mk "A" false true .int "a,7,ha",
          .mk "B" false true .int "b,,hb"]), l.name = "b" →
        ∃ fl0 fv u, fsLookup (FlagSet.mk [Flag.mk "a" "ha" (.intF 7) "7",
            Flag.mk "b" "hb" (.intF 0) "0"] false []) "b" = some fl0 ∧
          fl0.value.set "5" = .ok fv ∧
          reconVal l.field.typ (flagObtained fv) = .ok u ∧
          getPath v2 l.path = some u) ∧
      (∀ l ∈ leavesT (.struct_ [.mk "A" false true .int "a,7,ha",
          .mk "B" false true .int "b,,hb"]), ¬l.name = "b" →
        ∃ u, reconVal l.field.typ (flagObtained (flagOf l).value) = .ok u ∧
          getPath v2 l.path = some u) ∧
      (∀ q, (∀ l ∈ leavesT (.struct_ [.mk "A" false true .int "a,7,ha",
          .mk "B" false true .int "b,,hb"]), PathDisj l.path q) →
        getPath v2 q = getPath (zeroVal (.struct_
          [.mk "A" false true .int "a,7,ha",
            .mk "B" false true .int "b,,hb"])) q)) := by
  have h1 : addFlags emptyFS
      (.struct_ [.mk "A" false true .int "a,7,ha",
        .mk "B" false true .int "b,,hb"]) =
      .ok (FlagSet.mk [Flag.mk "a" "ha" (.intF 7) "7",
        Flag.mk "b" "hb" (.intF 0) "0"] false []) := by
    simp [addFlags, addFlagsList, addFlagsField, visibleFields, visFields, visAnon,
      parseTag, splitN, splitNAux, breakAt, fsLookup, regFlagVal, applyDefault,
      defineFlag, mapFlag, emptyFS, derefOnce, kindOf, implementsFlagValue,
      GoField.tag, GoField.anonymous, GoField.exported, GoField.typ, GoField.name,
      VField.field, VField.index, FlagVal.set, FlagVal.str, parseGoInt, decDigits,
      digitsNat, digitsNatAux]
    decide
  have h2 : simulateParse (FlagSet.mk [Flag.mk "a" "ha" (.intF 7) "7",
      Flag.mk "b" "hb" (.intF 0) "0"] false []) "b" "5" =
      .ok (FlagSet.mk [Flag.mk "a" "ha" (.intF 7) "7",
        Flag.mk "b" "hb" (.intF 5) "0"] true ["b"]) := by
    decide
  exact ⟨h1, h2, roundtrip_assigned_value_and_defaults
    (.struct_ [.mk "A" false true .int "a,7,ha",
      .mk "B" false true .int "b,,hb"]) "b" "5"
    (FlagSet.mk [Flag.mk "a" "ha" (.intF 7) "7",
      Flag.mk "b" "hb" (.intF 0) "0"] false [])
    (FlagSet.mk [Flag.mk "a" "ha" (.intF 7) "7",
      Flag.mk "b" "hb" (.intF 5) "0"] true ["b"]) h1 h2⟩

/-- C4: for every record shape, declaring the same flag name in two
annotated fields at any nesting depths is fatal in both passes: when the
annotated leaf names are not pairwise distinct, addFlags fails with an
error, and so does the index-building pass of the synchronizer; and
conversely every successful pass leaves every registered flag name,
respectively every indexed name, unique. -/
theorem duplicate_flag_names_fatal (t : GoType) :
    (¬((leavesT t).map Leaf.name).Nodup →
      (∃ e, addFlags emptyFS t = .error e) ∧
      (∃ e, getFlagIndexes [] t [] = .error e)) ∧
    (∀ fs2, addFlags emptyFS t = .ok fs2 →
      (fs2.flags.map Flag.name).Nodup) ∧
    (∀ idx2, getFlagIndexes [] t [] = .ok idx2 →
      (idx2.map Prod.fst).Nodup) := by
  refine ⟨?_, ?_, ?_⟩
  · intro hdup
    constructor
    · cases haf : addFlags emptyFS t with
      | error e => exact ⟨e, rfl⟩
      | ok fs2 =>
          rcases addFlags_char emptyFS t fs2 haf with ⟨⟨_, _, _, hnd, _⟩, _⟩
          exact absurd hnd hdup
    · cases hgf : getFlagIndexes [] t [] with
      | error e => exact ⟨e, rfl⟩
      | ok idx2 =>
          by_cases hs : ∃ gs, t = .struct_ gs
          · rcases hs with ⟨gs, rfl⟩
            rcases gfi_nec [] gs [] idx2 hgf with ⟨htg, hok⟩
            exact absurd hok.1 hdup
          · rw [gfi_nonstruct [] t [] (fun gs hgs => hs ⟨gs, hgs⟩)] at hgf
            exact Except.noConfusion hgf
  · intro fs2 haf
    rcases addFlags_char emptyFS t fs2 haf with ⟨⟨hfl, _, _, hnd, _⟩, _⟩
    rw [hfl]
    have hnil : (emptyFS.flags ++ (leavesT t).map flagOf) =
        (leavesT t).map flagOf := rfl
    rw [hnil, names_map_flagOf]
    exact hnd
  · intro idx2 hgf
    by_cases hs : ∃ gs, t = .struct_ gs
    · rcases hs with ⟨gs, rfl⟩
      rcases gfi_nec [] gs [] idx2 hgf with ⟨htg, hok⟩
      have hval := gfi_suff [] gs [] htg hok
      rw [hgf] at hval
      injection hval with hval
      rw [hval, List.nil_append, leafEntries_names]
      exact hok.1
    · rw [gfi_nonstruct [] t [] (fun gs hgs => hs ⟨gs, hgs⟩)] at hgf
      exact Except.noConfusion hgf

/-- Witness for C4 at a concrete record with two fields annotated with the
same flag name x: the leaf names are duplicated, and both the registration
pass and the index-building pass fail with an error. -/
theorem duplicate_flag_names_fatal_witness :
    ¬((leavesT (.struct_ [.mk "A" false true .int "x,,ha",
        .mk "B" false true .int "x,,hb"])).map Leaf.name).Nodup ∧
    (∃ e, addFlags emptyFS (.struct_ [.mk "A" false true .int "x,,ha",
      .mk "B" false true .int "x,,hb"]) = .error e) ∧
    (∃ e, getFlagIndexes [] (.struct_ [.mk "A" false true .int "x,,ha",
      .mk "B" false true .int "x,,hb"]) [] = .error e) := by
  have hleaves : leavesT (.struct_ [.mk "A" false true .int "x,,ha",
      .mk "B" false true .int "x,,hb"]) =
      [Leaf.mk [0] (.mk "A" false true .int "x,,ha") "x" "" "ha",
        Leaf.mk [1] (.mk "B" false true .int "x,,hb") "x" "" "hb"] := by
    simp [leavesT, leavesList, leavesField, visFields, visAnon, parseTag,
      splitN, splitNAux, breakAt, kindOf, derefOnce,
      GoField.tag, GoField.anonymous, GoField.exported, GoField.typ,
      VField.field, VField.index]
  have hdup : ¬((leavesT (.struct_ [.mk "A" false true .int "x,,ha",
      .mk "B" false true .int "x,,hb"])).map Leaf.name).Nodup := by
    rw [hleaves]
    decide
  have hmain := duplicate_flag_names_fatal
    (.struct_ [.mk "A" false true .int "x,,ha",
      .mk "B" false true .int "x,,hb"])
  exact ⟨hdup, (hmain.1 hdup).1, (hmain.1 hdup).2⟩


end Sflag
